import Mathlib

set_option maxHeartbeats 1000000
set_option maxRecDepth 4000

/-!  Verification development for the ZenStack Prisma schema generator.

Shallow embedding of `packages/schema/src/plugins/prisma/schema-generator.ts`
and of the runtime helper `getIdFields`.  Source AST nodes, the generator's
translation functions and the classifier are translated from the TypeScript
source; helpers that live in the repository outside the provided sources
(the SDK's `resolved` / `getLiteral` helpers, the prisma-builder target
object model, the ZModel code re-renderer) are modelled from the spec and
carry a doc comment saying so.  Fallible TypeScript code is embedded as
`Except GenError`; a thrown `PluginError` and a raw JavaScript runtime error
(such as reading a property of `undefined`) are kept distinct.  -/

/-- Errors a generation step can raise: a descriptive `PluginError` thrown by
the generator itself, or a plain JavaScript runtime error (`TypeError`,
`SyntaxError`, unresolved-reference `Error`, ...). -/
inductive GenError where
  | pluginError (message : String)
  | runtimeError (message : String)
deriving DecidableEq, Repr

/-- ZModel expression AST (`Expression` from the language package): the tagged
union of literals, null, arrays, reference expressions and invocations.
References are carried as their resolution result (`some name` when the lazy
reference cell is resolved, `none` when dangling). -/
inductive Expression where
  | stringLit (value : String)
  | numberLit (value : String)
  | boolLit (value : Bool)
  | nullExpr
  | arrayExpr (items : List Expression)
  | refExpr (target : Option String) (args : List (String × Expression))
  | invocationExpr (fn : Option String) (args : List (Option String × Expression))

/-- Declaration of an attribute (`Attribute` from the language AST): its name
(including the leading `@` or `@@`) and, for each attribute applied to the
declaration itself, the name of that attribute's resolved declaration
(`a.decl.ref?.name`, hence an `Option`). -/
structure AttrDecl where
  name : String
  selfAttrRefNames : List (Option String)

/-- Attribute instance applied to a model, field or enum
(`DataModelAttribute` / `DataModelFieldAttribute`): the possibly-unresolved
reference to its declaration, and the ordered argument list (optional
argument name, expression value). -/
structure Attribute where
  decl : Option AttrDecl
  args : List (Option String × Expression)

/-- Type descriptor of a data-model field (`DataModelFieldType`): optional
builtin scalar type name, optional reference (whose resolution is itself
optional), optional `Unsupported(...)` escape value, array/optional flags. -/
structure DataModelFieldType where
  type : Option String
  reference : Option (Option String)
  unsupported : Option Expression
  array : Bool
  optional : Bool

/-- Field of a data model (`DataModelField`). -/
structure DataModelField where
  name : String
  type : DataModelFieldType
  attributes : List Attribute
  comments : List String

/-- Data model declaration (`DataModel`). -/
structure DataModel where
  name : String
  isView : Bool
  fields : List DataModelField
  attributes : List Attribute
  comments : List String

/-- Field of an enum declaration (`EnumField`). -/
structure EnumField where
  name : String
  attributes : List Attribute
  comments : List String

/-- Enum declaration (`Enum` in the language AST). -/
structure EnumDecl where
  name : String
  fields : List EnumField
  attributes : List Attribute
  comments : List String

/-- Literal value appearing in a config expression (`LiteralExpr` as used in
datasource/generator fields): string, number (kept as its source token) or
boolean. -/
inductive Lit where
  | str (value : String)
  | num (value : String)
  | bool (value : Bool)

/-- Item of a `ConfigArrayExpr`: a literal, or a config invocation
(`name(arg: lit, ...)`). -/
inductive ConfigArrayItem where
  | lit (l : Lit)
  | invocation (name : String) (args : List (String × Lit))

/-- Config expression (`ConfigExpr`): literal, invocation expression, or
array of config items. -/
inductive ConfigExpr where
  | lit (l : Lit)
  | invocation (fn : Option String) (args : List (Option String × Expression))
  | array (items : List ConfigArrayItem)

/-- Datasource declaration (`DataSource`). -/
structure DataSourceDecl where
  name : String
  fields : List (String × ConfigExpr)

/-- Generator declaration (`GeneratorDecl`). -/
structure GeneratorDecl where
  name : String
  fields : List (String × ConfigExpr)

/-- Top-level declaration of a ZModel document; `other` stands for the
declaration kinds (attribute, function, plugin declarations) that the
generator's switch statement does not handle. -/
inductive Declaration where
  | dataSource (d : DataSourceDecl)
  | enumDecl (e : EnumDecl)
  | dataModel (m : DataModel)
  | generator (g : GeneratorDecl)
  | other

/-! Target (Prisma) object model.  The prisma-builder module is not among the
provided sources, so these types are modelled from the spec (§3, §4.1):
ordered collections, order of addition preserved, attribute variant over
regular and pass-through. -/

/-- Modelled from the spec: a simple name/text field of a datasource or
generator block (`SimpleField` of the prisma-builder). -/
structure SimpleField where
  name : String
  text : String
deriving DecidableEq, Repr

/-- Modelled from the spec: target field type (name, array flag, optional
flag) — `ModelFieldType` of the prisma-builder. -/
structure ModelFieldType where
  name : String
  isArray : Bool
  isOptional : Bool

/-- Modelled from the spec: value of a target attribute argument
(`AttributeArgValue` of the prisma-builder), tagged union over string,
number, boolean, array, field reference and function call. -/
inductive PrismaAttributeArgValue where
  | str (value : String)
  | num (value : String)
  | bool (value : Bool)
  | array (items : List PrismaAttributeArgValue)
  | fieldRef (name : String) (args : List (String × Expression))
  | functionCall (name : String) (args : List (Option String × String))

/-- Modelled from the spec: named target attribute argument
(`AttributeArg` of the prisma-builder). -/
structure PrismaAttributeArg where
  name : Option String
  value : PrismaAttributeArgValue

/-- Modelled from the spec: target attribute — regular (name plus ordered
args) or pass-through (opaque literal text) — covering the prisma-builder's
`FieldAttribute`, `ContainerAttribute` and `PassThroughAttribute`. -/
inductive PrismaAttribute where
  | regular (name : String) (args : List PrismaAttributeArg)
  | passThrough (text : String)

/-- Modelled from the spec: target model field handle (name, type, ordered
attributes, synthesized doc comments, author comments appended afterwards). -/
structure PrismaField where
  name : String
  type : ModelFieldType
  attributes : List PrismaAttribute
  documentations : List String
  comments : List String

/-- Modelled from the spec: target model/view declaration (ordered fields,
ordered container attributes, ordered comment lines). -/
structure PrismaModelDecl where
  name : String
  isView : Bool
  fields : List PrismaField
  attributes : List PrismaAttribute
  comments : List String

/-- Modelled from the spec: target enum field. -/
structure PrismaEnumField where
  name : String
  attributes : List PrismaAttribute
  documentations : List String

/-- Modelled from the spec: target enum declaration. -/
structure PrismaEnumDecl where
  name : String
  fields : List PrismaEnumField
  attributes : List PrismaAttribute
  comments : List String

/-- Modelled from the spec: generator block of the target document. -/
structure PrismaGenerator where
  name : String
  fields : List SimpleField
deriving DecidableEq, Repr

/-- Modelled from the spec: a declaration of the target schema document.
The spec requires the document to be an ordered collection whose
serialization echoes the order of addition, so the document is a single
ordered list of declarations. -/
inductive PrismaDecl where
  | dataSource (name : String) (fields : List SimpleField)
  | generator (g : PrismaGenerator)
  | model (m : PrismaModelDecl)
  | enumDecl (e : PrismaEnumDecl)

/-- Sequential effectful map over `Except`, the embedding of a TypeScript
`array.map(f)` where `f` may throw: stops at the first error. -/
def mapE (f : α → Except GenError β) : List α → Except GenError (List β)
  | [] => .ok []
  | x :: xs => do
    let y ← f x
    let ys ← mapE f xs
    .ok (y :: ys)

/-- Modelled from the spec: the SDK `resolved` helper — returns the resolved
declaration behind a lazy reference cell, throwing a plain error when the
cell is still unresolved (spec §9: any cell still unresolved at translation
time is a hard error). Instance for plain names. -/
def resolvedName : Option String → Except GenError String
  | some n => .ok n
  | none => .error (.runtimeError "Reference not resolved")

/-- Modelled from the spec: the SDK `resolved` helper at attribute
declarations. -/
def resolvedAttrDecl : Option AttrDecl → Except GenError AttrDecl
  | some d => .ok d
  | none => .error (.runtimeError "Reference not resolved")

/-- The container-level pass-through attribute name (`MODEL_PASSTHROUGH_ATTR`). -/
def MODEL_PASSTHROUGH_ATTR : String := "@@prisma.passthrough"

/-- The field-level pass-through attribute name (`FIELD_PASSTHROUGH_ATTR`). -/
def FIELD_PASSTHROUGH_ATTR : String := "@prisma.passthrough"

/-- Classifier `isPrismaAttribute`: false for a dangling declaration
reference; otherwise true iff the resolved declaration carries an attribute
whose own declaration resolves to `@@@prisma`, or is named exactly one of
the two pass-through attributes. -/
def isPrismaAttribute (attr : Attribute) : Bool :=
  match attr.decl with
  | none => false
  | some attrDecl =>
    (attrDecl.selfAttrRefNames.any (fun n => n == some "@@@prisma")) ||
      attrDecl.name == MODEL_PASSTHROUGH_ATTR ||
      attrDecl.name == FIELD_PASSTHROUGH_ATTR

/-- JSON escape of a single character (the `JSON.stringify` string escaping,
restricted to the quote and backslash cases that can occur here). -/
def jsonEscapeChar (c : Char) : String :=
  if c = '"' then "\\\"" else if c = '\\' then "\\\\" else String.singleton c

/-- JSON escape of a string body. -/
def jsonEscape (s : String) : String :=
  String.join (s.data.map jsonEscapeChar)

/-- JSON string rendering — `JSON.stringify` applied to a string value. -/
def jsonQuote (s : String) : String :=
  "\"" ++ jsonEscape s ++ "\""

/-- The generator's `literalToText`: `JSON.stringify(expr.value)` — strings
quoted and escaped, numbers unquoted, booleans as bare keywords. -/
def literalToText : Lit → String
  | .str s => jsonQuote s
  | .num n => n
  | .bool b => if b then "true" else "false"

/-- The generator's `configInvocationArgToText`: renders `name: literal`. -/
def configInvocationArgToText (arg : String × Lit) : String :=
  arg.1 ++ ": " ++ literalToText arg.2

/-- The generator's `configArrayToText`: renders a config array as
`[item, item, ...]`, literals through `literalToText`, invocation items as
`name(arg, ...)` (argument list omitted when empty). -/
def configArrayToText (items : List ConfigArrayItem) : String :=
  "[" ++
    String.intercalate ", "
      (items.map (fun item =>
        match item with
        | .lit l => literalToText l
        | .invocation n args =>
          n ++
            (if 0 < args.length then
              "(" ++ String.intercalate ", " (args.map configInvocationArgToText) ++ ")"
            else ""))) ++
  "]"

/-- Modelled from the spec: the prisma-builder's `FunctionCall` node —
resolved function name plus translated argument texts. -/
structure PrismaFunctionCall where
  name : String
  args : List (Option String × String)

/-- Modelled from the spec: serialization of a function call as
`name(args...)`, named arguments rendered `name: value`. -/
def renderFunctionCall (fc : PrismaFunctionCall) : String :=
  fc.name ++ "(" ++
    String.intercalate ", "
      (fc.args.map (fun a =>
        match a.1 with
        | some n => n ++ ": " ++ a.2
        | none => a.2)) ++
  ")"

/-- Per-argument translation inside `makeFunctionCall`: the `ts-pattern`
match — a string literal is re-quoted (template literal, no escaping), any
other literal is stringified via `value.toString()`, a null literal becomes
the token `null`, and every other expression shape throws. -/
def fnArgText : Expression → Except GenError String
  | .stringLit v => .ok ("\"" ++ v ++ "\"")
  | .numberLit v => .ok v
  | .boolLit b => .ok (if b then "true" else "false")
  | .nullExpr => .ok "null"
  | _ => .error (.pluginError "Function call argument must be literal or null")

/-- The generator's `makeFunctionCall`: resolves the invoked function's name
and translates every argument via the literal-or-null match. -/
def makeFunctionCall (fn : Option String) (args : List (Option String × Expression)) :
    Except GenError PrismaFunctionCall := do
  let n ← resolvedName fn
  let as ← mapE (fun a => (fnArgText a.2).map (fun t => (a.1, t))) args
  .ok ⟨n, as⟩

mutual

/-- The generator's `makeAttributeArgValue`: literals map to the matching
tagged value, arrays recurse, reference expressions resolve their target and
carry the qualifier args through uninterpreted, invocations go through
`makeFunctionCall`, and any other expression kind (here: the null literal)
is rejected naming the construct. -/
def makeAttributeArgValue : Expression → Except GenError PrismaAttributeArgValue
  | .stringLit v => .ok (.str v)
  | .numberLit v => .ok (.num v)
  | .boolLit b => .ok (.bool b)
  | .arrayExpr items => do
    let vs ← makeAttributeArgValueList items
    .ok (.array vs)
  | .refExpr target args => do
    let n ← resolvedName target
    .ok (.fieldRef n args)
  | .invocationExpr f args => do
    let fc ← makeFunctionCall f args
    .ok (.functionCall fc.name fc.args)
  | .nullExpr => .error (.pluginError "Unsupported attribute argument expression type: NullExpr")

/-- Sequential translation of array items for `makeAttributeArgValue`. -/
def makeAttributeArgValueList : List Expression → Except GenError (List PrismaAttributeArgValue)
  | [] => .ok []
  | x :: xs => do
    let v ← makeAttributeArgValue x
    let vs ← makeAttributeArgValueList xs
    .ok (v :: vs)

end

/-- The generator's `makeAttributeArg`: wraps the translated value with the
argument's optional name. -/
def makeAttributeArg (arg : Option String × Expression) : Except GenError PrismaAttributeArg :=
  (makeAttributeArgValue arg.2).map (fun v => ⟨arg.1, v⟩)

/-- Modelled from the spec: the SDK literal-extraction helper `getLiteral`
specialised at string type as used by the pass-through handlers (spec §4.3:
the pass-through argument must be a literal string), composed with the
JavaScript truthiness test `if (text)` — so an absent value, a non-string
expression or the empty string all yield `none`. -/
def passThroughText : Expression → Option String
  | .stringLit s => if s.isEmpty then none else some s
  | _ => none

/-- The generator's `makeFieldAttribute`: for the field-level pass-through
attribute, reads `attr.args[0].value` (an unguarded index access — an empty
argument list raises a JavaScript `TypeError`, embedded as a runtime error)
and either wraps the string literal text as a pass-through attribute or
throws a descriptive `PluginError`; every other attribute is translated
structurally. -/
def makeFieldAttribute (attr : Attribute) : Except GenError PrismaAttribute := do
  let attrDecl ← resolvedAttrDecl attr.decl
  if attrDecl.name == FIELD_PASSTHROUGH_ATTR then
    match attr.args with
    | [] => .error (.runtimeError "TypeError: Cannot read properties of undefined (reading value)")
    | a :: _ =>
      match passThroughText a.2 with
      | some t => .ok (.passThrough t)
      | none => .error (.pluginError ("Invalid arguments for " ++ FIELD_PASSTHROUGH_ATTR ++ " attribute"))
  else
    let args ← mapE makeAttributeArg attr.args
    .ok (.regular attrDecl.name args)

/-- The generator's `generateContainerAttribute`, returning the list of
attributes pushed onto the container (zero or one): for the container-level
pass-through attribute it reads `attr.args[0].value` unguarded and pushes
the pass-through attribute only when the text extraction succeeds —
silently pushing nothing otherwise; every other attribute is translated
structurally. -/
def generateContainerAttribute (attr : Attribute) : Except GenError (List PrismaAttribute) := do
  let attrDecl ← resolvedAttrDecl attr.decl
  if attrDecl.name == MODEL_PASSTHROUGH_ATTR then
    match attr.args with
    | [] => .error (.runtimeError "TypeError: Cannot read properties of undefined (reading value)")
    | a :: _ =>
      match passThroughText a.2 with
      | some t => .ok [.passThrough t]
      | none => .ok []
  else
    let args ← mapE makeAttributeArg attr.args
    .ok [.regular attrDecl.name args]

mutual

/-- Modelled from the spec: the ZModel code re-renderer
(`ZModelCodeGenerator.generate`) used to re-render the source syntax of a
stripped attribute into a doc-comment line — expression part. -/
def renderExpr : Expression → String
  | .stringLit s => "\"" ++ s ++ "\""
  | .numberLit n => n
  | .boolLit b => if b then "true" else "false"
  | .nullExpr => "null"
  | .arrayExpr items => "[" ++ renderExprList items ++ "]"
  | .refExpr target args =>
    (target.getD "") ++ (if args.isEmpty then "" else "(" ++ renderRefArgList args ++ ")")
  | .invocationExpr f args => (f.getD "") ++ "(" ++ renderInvArgList args ++ ")"

/-- Comma-separated rendering of expression lists. -/
def renderExprList : List Expression → String
  | [] => ""
  | [x] => renderExpr x
  | x :: xs => renderExpr x ++ ", " ++ renderExprList xs

/-- Comma-separated rendering of reference qualifier arguments. -/
def renderRefArgList : List (String × Expression) → String
  | [] => ""
  | [(n, v)] => n ++ ": " ++ renderExpr v
  | (n, v) :: xs => n ++ ": " ++ renderExpr v ++ ", " ++ renderRefArgList xs

/-- Comma-separated rendering of invocation arguments. -/
def renderInvArgList : List (Option String × Expression) → String
  | [] => ""
  | [(n, v)] => (n.elim "" (fun s => s ++ ": ")) ++ renderExpr v
  | (n, v) :: xs => (n.elim "" (fun s => s ++ ": ")) ++ renderExpr v ++ ", " ++ renderInvArgList xs

end

/-- Modelled from the spec: re-rendering of a whole attribute instance in
source syntax (attribute name, then its argument list when non-empty). -/
def zmodelRender (attr : Attribute) : String :=
  (attr.decl.elim "" AttrDecl.name) ++
    (if attr.args.isEmpty then ""
     else "(" ++ renderInvArgList attr.args ++ ")")

mutual

/-- Search for the current-identity invocation in an expression subtree:
the embedding of `streamAst(expr).some(isAuthInvocation)`, where the SDK's
`isAuthInvocation` (modelled from the spec) recognizes an invocation of the
reserved `auth` function. -/
def containsAuth : Expression → Bool
  | .stringLit _ => false
  | .numberLit _ => false
  | .boolLit _ => false
  | .nullExpr => false
  | .arrayExpr items => containsAuthList items
  | .refExpr _ args => containsAuthRefArgs args
  | .invocationExpr f args => f == some "auth" || containsAuthInvArgs args

/-- Search over an expression list. -/
def containsAuthList : List Expression → Bool
  | [] => false
  | e :: es => containsAuth e || containsAuthList es

/-- Search over reference qualifier arguments. -/
def containsAuthRefArgs : List (String × Expression) → Bool
  | [] => false
  | (_, e) :: as => containsAuth e || containsAuthRefArgs as

/-- Search over invocation arguments. -/
def containsAuthInvArgs : List (Option String × Expression) → Bool
  | [] => false
  | (_, e) :: as => containsAuth e || containsAuthInvArgs as

end

/-- Modelled from the spec: the SDK `getAttribute` helper — the first
attribute of the field whose declaration resolves to the given name. -/
def getAttribute (f : DataModelField) (n : String) : Option Attribute :=
  f.attributes.find? (fun a => (a.decl.map AttrDecl.name) == some n)

/-- The generator's `hasDefaultWithAuth`: the field carries a `@default`
attribute whose first argument value exists and contains the `auth()`
invocation somewhere in its subtree. -/
def hasDefaultWithAuth (field : DataModelField) : Bool :=
  match getAttribute field "@default" with
  | none => false
  | some defaultAttr =>
    match defaultAttr.args with
    | [] => false
    | a :: _ => containsAuth a.2

/-- The generator's `getAttributesToGenerate`: no attributes at all when the
default value contains `auth()`, otherwise the emittable attributes
translated in order. -/
def getAttributesToGenerate (field : DataModelField) : Except GenError (List PrismaAttribute) :=
  if hasDefaultWithAuth field then .ok []
  else mapE makeFieldAttribute (field.attributes.filter isPrismaAttribute)

/-- Modelled from the spec: the validator-utils `getStringLiteral` helper —
the string value when the expression is a string literal, `none`
otherwise. -/
def getStringLiteral : Expression → Option String
  | .stringLit s => some s
  | _ => none

/-- JavaScript truthiness of a string-or-undefined value: `none` and the
empty string are falsy. -/
def jsTruthyStr : Option String → Option String
  | some s => if s.isEmpty then none else some s
  | none => none

/-- The generator's `getUnsupportedFieldType`: renders
`Unsupported("value")` when the type descriptor has an unsupported escape
whose value is a (truthy) string literal, `undefined` otherwise. -/
def getUnsupportedFieldType (fieldType : DataModelFieldType) : Option String :=
  match fieldType.unsupported with
  | some u =>
    match jsTruthyStr (getStringLiteral u) with
    | some v => some ("Unsupported(\"" ++ v ++ "\")")
    | none => none
  | none => none

/-- The type-name resolution expression of `generateModelField`:
`field.type.type || field.type.reference?.ref?.name ||
this.getUnsupportedFieldType(field.type)` with JavaScript `||` (the empty
string is falsy). -/
def resolveFieldTypeText (t : DataModelFieldType) : Option String :=
  (jsTruthyStr t.type).orElse
    (fun _ => (jsTruthyStr (t.reference.bind id)).orElse
      (fun _ => jsTruthyStr (getUnsupportedFieldType t)))

/-- The generator's `generateModelField`: fails with a `PluginError` naming
container and field when no type text can be derived; otherwise builds the
target field with translated attributes, one doc-comment line per resolved
non-emittable attribute, and the author comments. -/
def generateModelField (containerName : String) (field : DataModelField) :
    Except GenError PrismaField := do
  match resolveFieldTypeText field.type with
  | none =>
    .error (.pluginError ("Field type is not resolved: " ++ containerName ++ "." ++ field.name))
  | some fieldType => do
    let attributes ← getAttributesToGenerate field
    let nonPrismaAttributes :=
      field.attributes.filter (fun attr => attr.decl.isSome && !(isPrismaAttribute attr))
    let documentations := nonPrismaAttributes.map (fun attr => "/// " ++ zmodelRender attr)
    .ok
      { name := field.name
        type := ⟨fieldType, field.type.array, field.type.optional⟩
        attributes := attributes
        documentations := documentations
        comments := field.comments }

/-- The generator's `generateModel`: fields in order, then the emittable
container attributes in order, then one doc-comment line per resolved
non-emittable attribute, then the author comments. -/
def generateModel (decl : DataModel) : Except GenError PrismaModelDecl := do
  let fields ← mapE (generateModelField decl.name) decl.fields
  let attrLists ← mapE generateContainerAttribute (decl.attributes.filter isPrismaAttribute)
  let docComments :=
    (decl.attributes.filter (fun attr => attr.decl.isSome && !(isPrismaAttribute attr))).map
      (fun attr => "/// " ++ zmodelRender attr)
  .ok
    { name := decl.name
      isView := decl.isView
      fields := fields
      attributes := attrLists.flatten
      comments := docComments ++ decl.comments }

/-- The generator's `generateEnumField`: emittable attributes translated via
`makeFieldAttribute`, doc-comment lines for the resolved non-emittable
ones. -/
def generateEnumField (field : EnumField) : Except GenError PrismaEnumField := do
  let attributes ← mapE makeFieldAttribute (field.attributes.filter isPrismaAttribute)
  let nonPrismaAttributes :=
    field.attributes.filter (fun attr => attr.decl.isSome && !(isPrismaAttribute attr))
  let documentations := nonPrismaAttributes.map (fun attr => "/// " ++ zmodelRender attr)
  .ok ⟨field.name, attributes, documentations⟩

/-- The generator's `generateEnum`: fields in order, emittable container
attributes in order, doc-comment lines for resolved non-emittable
attributes, then author comments. -/
def generateEnum (decl : EnumDecl) : Except GenError PrismaEnumDecl := do
  let fields ← mapE generateEnumField decl.fields
  let attrLists ← mapE generateContainerAttribute (decl.attributes.filter isPrismaAttribute)
  let docComments :=
    (decl.attributes.filter (fun attr => attr.decl.isSome && !(isPrismaAttribute attr))).map
      (fun attr => "/// " ++ zmodelRender attr)
  .ok
    { name := decl.name
      fields := fields
      attributes := attrLists.flatten
      comments := docComments ++ decl.comments }

/-- The generator's `configExprToText`: literals via `literalToText`,
invocation expressions via `makeFunctionCall` then serialization, arrays via
`configArrayToText`. -/
def configExprToText : ConfigExpr → Except GenError String
  | .lit l => .ok (literalToText l)
  | .invocation f args => (makeFunctionCall f args).map renderFunctionCall
  | .array items => .ok (configArrayToText items)

/-- The generator's `generateDataSource`: translates every config field to
its text form, preserving order. -/
def generateDataSource (decl : DataSourceDecl) : Except GenError PrismaDecl := do
  let fields ← mapE (fun f => (configExprToText f.2).map (SimpleField.mk f.1)) decl.fields
  .ok (.dataSource decl.name fields)

/-- Semantic version triple; `getPrismaVersion` detects `none` or a version.
The comparison models standard major.minor.patch precedence (`semver.lt`). -/
structure SemVer where
  major : Nat
  minor : Nat
  patch : Nat
deriving DecidableEq, Repr

/-- Strict semantic-version comparison `semver.lt`. -/
def SemVer.ltv (a b : SemVer) : Bool :=
  Nat.blt a.major b.major ||
    (a.major == b.major &&
      (Nat.blt a.minor b.minor || (a.minor == b.minor && Nat.blt a.patch b.patch)))

/-- The fixed `5.0.0` threshold of the preview-feature negotiation. -/
def semver500 : SemVer := ⟨5, 0, 0⟩

/-- Result of `JSON.parse` on a previewFeatures field text, restricted to the
JSON subset reachable in these schemas: an array of plain strings, or a
top-level string (which is valid JSON but not an array). -/
inductive PJson where
  | strArr (xs : List String)
  | scalarStr (s : String)
deriving DecidableEq, Repr

/-- Drops leading spaces (JSON whitespace as produced by the config
renderer). -/
def skipSpaces : List Char → List Char
  | [] => []
  | c :: rest => if c = ' ' then skipSpaces rest else c :: rest

/-- Parses a JSON string body after the opening quote, up to the closing
quote (no escape sequences — the reachable feature names contain none). -/
def pStringL : List Char → Option (List Char × List Char)
  | [] => none
  | c :: rest =>
    if c = '"' then some ([], rest)
    else
      match pStringL rest with
      | some (s, r) => some (c :: s, r)
      | none => none

/-- Parses the `, "elem"`* tail of a JSON string array up to the closing
bracket; fuel-driven (the fuel only needs to exceed the element count). -/
def pElems : Nat → List Char → Option (List (List Char) × List Char)
  | 0, _ => none
  | _, [] => none
  | fuel + 1, c :: rest =>
    if c = ']' then some ([], rest)
    else if c = ',' then
      match skipSpaces rest with
      | [] => none
      | c2 :: rest2 =>
        if c2 = '"' then
          match pStringL rest2 with
          | none => none
          | some (s, r) =>
            match pElems fuel r with
            | none => none
            | some (xs, r2) => some (s :: xs, r2)
        else none
    else none

/-- Parses a whole JSON string array. -/
def pArr (l : List Char) : Option (List (List Char)) :=
  match skipSpaces l with
  | [] => none
  | c :: rest =>
    if c = '[' then
      match skipSpaces rest with
      | [] => none
      | c2 :: rest2 =>
        if c2 = ']' then (if (skipSpaces rest2).isEmpty then some [] else none)
        else if c2 = '"' then
          match pStringL rest2 with
          | none => none
          | some (s, r) =>
            match pElems (r.length + 1) r with
            | none => none
            | some (xs, r2) => if (skipSpaces r2).isEmpty then some (s :: xs) else none
        else none
    else none

/-- Embedding of `JSON.parse` on the previewFeatures text, over the JSON
subset reachable here: string arrays and top-level strings; anything else is
treated as a parse failure. -/
def jsonParsePF (s : String) : Option PJson :=
  match skipSpaces s.data with
  | [] => (pArr s.data).map (fun xs => .strArr (xs.map String.mk))
  | c :: rest =>
    if c = '"' then
      match pStringL rest with
      | some (t, r) => if (skipSpaces r).isEmpty then some (.scalarStr (String.mk t)) else none
      | none => none
    else (pArr s.data).map (fun xs => .strArr (xs.map String.mk))

/-- Encoding of the `, "elem"`* tail of a JSON string array, closing
bracket included. -/
def encodeTail : List (List Char) → List Char
  | [] => [']']
  | y :: ys => ',' :: '"' :: (y ++ '"' :: encodeTail ys)

/-- Char-level body of `JSON.stringify` on a string array (escape-free
strings: the reachable feature names need no escapes). -/
def stringifyChars : List (List Char) → List Char
  | [] => ['[', ']']
  | x :: rest => '[' :: '"' :: (x ++ '"' :: encodeTail rest)

/-- Embedding of `JSON.stringify` on a string array. -/
def stringifyStrList (xs : List String) : String :=
  String.mk (stringifyChars (xs.map String.data))

/-- Replaces the text of the first field with the given name (the mutation
`curr.text = ...` on the field found by `find`). -/
def updateFirstField : List SimpleField → String → String → List SimpleField
  | [], _, _ => []
  | f :: rest, n, t =>
    if f.name == n then ⟨f.name, t⟩ :: rest else f :: updateFirstField rest n t

/-- The update-or-push ending of the negotiation: mutate the found
previewFeatures field, or push a fresh one at the end. -/
def upsertField (fs : List SimpleField) (n t : String) : List SimpleField :=
  match fs.find? (fun f => f.name == n) with
  | none => fs ++ [⟨n, t⟩]
  | some _ => updateFirstField fs n t

/-- The provider test of the negotiation: the generator's `provider` field
text equals `JSON.stringify('prisma-client-js')`. -/
def providerIsClientJs (fs : List SimpleField) : Bool :=
  ((fs.find? (fun f => f.name == "provider")).map SimpleField.text) ==
    some (jsonQuote "prisma-client-js")

/-- Text of the previewFeatures field, defaulting to `"[]"` when the field
is absent (`?.text ?? '[]'`). -/
def pfFieldText (fs : List SimpleField) : String :=
  (((fs.find? (fun f => f.name == "previewFeatures")).map SimpleField.text).getD "[]")

/-- Parsed JSON value of the previewFeatures field text. -/
def pfParsed (fs : List SimpleField) : Option PJson :=
  jsonParsePF (pfFieldText fs)

/-- The preview-feature negotiation of `generateGenerator` (lines 229-265):
when the generator's `provider` field text equals the JSON string
`"prisma-client-js"` and a target-ORM version is detected, the
previewFeatures field text is parsed as JSON; a non-array is a
`PluginError`; below version 5.0.0 the two flags `extendedWhereUnique` and
`fieldReference` are each appended when absent; a non-empty resulting array
is re-serialized into the (updated or appended) previewFeatures field. -/
def previewFeaturesStep (version : Option SemVer) (fs : List SimpleField) :
    Except GenError (List SimpleField) :=
  if providerIsClientJs fs then
    match version with
    | none => .ok fs
    | some ver =>
      match pfParsed fs with
      | none => .error (.runtimeError "SyntaxError: Unexpected token in JSON")
      | some (.scalarStr _) => .error (.pluginError "option \"previewFeatures\" must be an array")
      | some (.strArr xs0) =>
        let xs1 :=
          if ver.ltv semver500 && !(xs0.contains "extendedWhereUnique") then
            xs0 ++ ["extendedWhereUnique"]
          else xs0
        let xs2 :=
          if ver.ltv semver500 && !(xs1.contains "fieldReference") then
            xs1 ++ ["fieldReference"]
          else xs1
        if 0 < xs2.length then
          .ok (upsertField fs "previewFeatures" (stringifyStrList xs2))
        else .ok fs
  else .ok fs

/-- The generator's `generateGenerator`: translates the config fields to
texts, then runs the preview-feature negotiation on the resulting field
list. -/
def generateGenerator (version : Option SemVer) (decl : GeneratorDecl) :
    Except GenError PrismaGenerator := do
  let fields ← mapE (fun f => (configExprToText f.2).map (SimpleField.mk f.1)) decl.fields
  let fields' ← previewFeaturesStep version fields
  .ok ⟨decl.name, fields'⟩

/-- One step of the driver's declaration switch: datasources, enums, models
and generators are generated; other declaration kinds fall through the
switch without effect. -/
def genDecl (version : Option SemVer) : Declaration → Except GenError (Option PrismaDecl)
  | .dataSource d => (generateDataSource d).map some
  | .enumDecl e => (generateEnum e).map (fun x => some (.enumDecl x))
  | .dataModel m => (generateModel m).map (fun x => some (.model x))
  | .generator g => (generateGenerator version g).map (fun x => some (.generator x))
  | .other => .ok none

/-- The driver loop of `generate` (lines 101-119): walks the declarations in
order, appending each generated target declaration to the document. -/
def generate (version : Option SemVer) : List Declaration → Except GenError (List PrismaDecl)
  | [] => .ok []
  | d :: rest => do
    let hd ← genDecl version d
    let tl ← generate version rest
    .ok (hd.toList ++ tl)

/-! Runtime helper `getIdFields` (source file `src/unnamed/part_001`). -/

/-- Per-field metadata entry of the runtime model-meta table: only the `isId`
flag matters here, the name is carried for realism. -/
structure FieldInfo where
  name : String
  isId : Bool
deriving DecidableEq, Repr

/-- Runtime model metadata: a map from lower-cased model name to the model's
field table (field records in `Object.values` order); `none` for an absent
model key. -/
structure ModelMeta where
  fields : List (String × List FieldInfo)

/-- The `lower-case-first` package: lower-cases the first character. -/
def lowerCaseFirst (s : String) : String :=
  match s.data with
  | [] => ""
  | c :: rest => String.mk (c.toLower :: rest)

/-- The runtime `getIdFields`: looks the model up by lower-cased name,
substitutes the empty table when absent (throwing instead when
`throwIfNotFound`), filters the `isId` fields, and throws when the result is
empty and `throwIfNotFound` is set. -/
def getIdFields (modelMeta : ModelMeta) (model : String) (throwIfNotFound : Bool) :
    Except String (List FieldInfo) :=
  match (modelMeta.fields.find? (fun e => e.1 == lowerCaseFirst model)).map Prod.snd with
  | none =>
    if throwIfNotFound then .error ("Unable to load fields for " ++ model)
    else .ok []
  | some fs =>
    let result := fs.filter FieldInfo.isId
    if result.isEmpty && throwIfNotFound then
      .error ("model " ++ model ++ " does not have an id field")
    else .ok result

/-! Claim-side definitions: vocabulary taken from the claims, used to state
the theorems against the source-translated functions above. -/

/-- Claim C6's argument classification: string, numeric or boolean literal,
or the null literal. -/
def isLiteralOrNullArg : Expression → Bool
  | .stringLit _ => true
  | .numberLit _ => true
  | .boolLit _ => true
  | .nullExpr => true
  | _ => false

/-- Claim C7's "appended only if absent". -/
def addIfAbsent (xs : List String) (x : String) : List String :=
  if xs.contains x then xs else xs ++ [x]

/-- Claim C5 (amended): a container-level pass-through attribute whose sole
argument is missing or not a non-empty string literal — the case the code
silently drops. -/
def silentlySkippedPT (a : Attribute) : Bool :=
  match a.decl with
  | none => false
  | some d =>
    d.name == MODEL_PASSTHROUGH_ATTR &&
      (match a.args with
       | [] => true
       | x :: _ => (passThroughText x.2).isNone)

/-- Claim C5 (amended): number of target attributes a container's attribute
list should emit — one per emittable attribute except the silently skipped
container pass-through case. -/
def countEmitted (attrs : List Attribute) : Nat :=
  ((attrs.filter isPrismaAttribute).filter (fun a => !silentlySkippedPT a)).length

/-- The declaration kinds the driver's switch handles. -/
def isHandledDecl : Declaration → Bool
  | .other => false
  | _ => true

/-- Claim C8's correspondence between a handled source declaration and the
target declaration generated for it: same kind, same name, fields in source
order, and container attributes exactly the concatenation of the per-source-
attribute emissions in source order. -/
def declCorresponds : Declaration → PrismaDecl → Prop
  | .dataSource d, .dataSource n fs =>
    n = d.name ∧ fs.map SimpleField.name = d.fields.map Prod.fst
  | .generator g, .generator pg => pg.name = g.name
  | .enumDecl e, .enumDecl pe =>
    pe.name = e.name ∧
      pe.fields.map PrismaEnumField.name = e.fields.map EnumField.name ∧
      ∃ ls, mapE generateContainerAttribute (e.attributes.filter isPrismaAttribute) = .ok ls ∧
        pe.attributes = ls.flatten
  | .dataModel m, .model pm =>
    pm.name = m.name ∧
      pm.fields.map PrismaField.name = m.fields.map DataModelField.name ∧
      ∃ ls, mapE generateContainerAttribute (m.attributes.filter isPrismaAttribute) = .ok ls ∧
        pm.attributes = ls.flatten
  | _, _ => False

/-- Claim C10's expected result: the isId-flagged entries of the model's
field table, the empty list when the model is absent. -/
def idFieldsOf (meta : ModelMeta) (model : String) : List FieldInfo :=
  (((meta.fields.find? (fun e => e.1 == lowerCaseFirst model)).map Prod.snd).getD []).filter
    FieldInfo.isId

/-! Concrete demonstration inputs used by the witness theorems. -/

/-- Demonstration field with a plain scalar type. -/
def demoScalarField : DataModelField :=
  ⟨"id", ⟨some "Int", none, none, false, false⟩, [], []⟩

/-- Demonstration field whose `@default` argument invokes `auth()`; the
`@default` declaration carries the `@@@prisma` marker, so the attribute is
emittable on its own. -/
def demoAuthField : DataModelField :=
  ⟨"owner", ⟨some "String", none, none, false, false⟩,
    [⟨some ⟨"@default", [some "@@@prisma"]⟩,
      [(none, .invocationExpr (some "auth") [])]⟩], []⟩

/-- Demonstration model: one scalar field, one resolved non-emittable
attribute (an access-control rule), one author comment. -/
def demoModel : DataModel :=
  ⟨"User", false, [demoScalarField],
    [⟨some ⟨"@@allow", []⟩, [(none, .stringLit "all")]⟩],
    ["// author comment"]⟩

/-- Demonstration enum: one field, one resolved non-emittable attribute. -/
def demoEnum : EnumDecl :=
  ⟨"Role", [⟨"ADMIN", [], []⟩], [⟨some ⟨"@@deny", []⟩, []⟩], ["// enum comment"]⟩

/-- Demonstration generator fields: client provider, no previewFeatures. -/
def demoGenFields : List SimpleField :=
  [⟨"provider", "\"prisma-client-js\""⟩]

/-- Output of the negotiation on `demoGenFields` below version 5: both flags
appended into a fresh previewFeatures field. -/
def demoGenFieldsOut : List SimpleField :=
  [⟨"provider", "\"prisma-client-js\""⟩,
   ⟨"previewFeatures", "[\"extendedWhereUnique\",\"fieldReference\"]"⟩]

/-- Demonstration document for the order-preservation witness. -/
def demoDecls : List Declaration :=
  [.dataSource ⟨"db", [("provider", .lit (.str "postgresql"))]⟩,
   .other,
   .dataModel demoModel,
   .enumDecl demoEnum,
   .generator ⟨"client", [("provider", .lit (.str "prisma-client-js"))]⟩]

/-! Helper lemmas. -/

theorem mapE_ok_map {α β γ : Type} (f : α → Except GenError β) (g : β → γ) (h : α → γ)
    (hfg : ∀ a b, f a = .ok b → g b = h a) :
    ∀ (l : List α) (l' : List β), mapE f l = .ok l' → l'.map g = l.map h := by
  intro l
  induction l with
  | nil => intro l' hl; simp [mapE] at hl; simp [hl]
  | cons a as ih =>
    intro l' hl
    simp only [mapE] at hl
    cases hfa : f a with
    | error e => rw [hfa] at hl; simp [Bind.bind, Except.bind] at hl
    | ok b =>
      rw [hfa] at hl
      cases has : mapE f as with
      | error e => rw [has] at hl; simp [Bind.bind, Except.bind] at hl
      | ok bs =>
        rw [has] at hl
        simp [Bind.bind, Except.bind, pure, Except.pure] at hl
        subst hl
        simp [hfg a b hfa, ih bs has]

theorem resolveFieldTypeText_of_type {t : DataModelFieldType} {s : String}
    (h : jsTruthyStr t.type = some s) : resolveFieldTypeText t = some s := by
  simp [resolveFieldTypeText, h, Option.orElse]

theorem resolveFieldTypeText_of_ref {t : DataModelFieldType} {s : String}
    (h1 : jsTruthyStr t.type = none) (h2 : jsTruthyStr (t.reference.bind id) = some s) :
    resolveFieldTypeText t = some s := by
  simp only [resolveFieldTypeText, h1, Option.orElse, id] at h2 ⊢
  simp [h2]

theorem resolveFieldTypeText_of_unsupported {t : DataModelFieldType} {s : String}
    (h1 : jsTruthyStr t.type = none) (h2 : jsTruthyStr (t.reference.bind id) = none)
    (h3 : jsTruthyStr (getUnsupportedFieldType t) = some s) :
    resolveFieldTypeText t = some s := by
  simp only [resolveFieldTypeText, h1, Option.orElse, id] at h2 ⊢
  simp [h2, h3]

theorem resolveFieldTypeText_of_none {t : DataModelFieldType}
    (h1 : jsTruthyStr t.type = none) (h2 : jsTruthyStr (t.reference.bind id) = none)
    (h3 : jsTruthyStr (getUnsupportedFieldType t) = none) :
    resolveFieldTypeText t = none := by
  simp only [resolveFieldTypeText, h1, Option.orElse, id] at h2 ⊢
  simp [h2, h3]

/-! Claim theorems. -/

/-- Claim C1: `isPrismaAttribute` returns false when the attribute's
declaration reference is unresolved; it returns true exactly when the
resolved declaration carries the `@@@prisma` marker attribute or is named
`@@prisma.passthrough` or `@prisma.passthrough`, and false in every other
case. -/
theorem isPrismaAttribute_characterization (attr : Attribute) :
    isPrismaAttribute attr = true ↔
      ∃ d, attr.decl = some d ∧
        (some "@@@prisma" ∈ d.selfAttrRefNames ∨
          d.name = "@@prisma.passthrough" ∨ d.name = "@prisma.passthrough") := by
  cases hd : attr.decl with
  | none => simp [isPrismaAttribute, hd]
  | some d =>
    simp [isPrismaAttribute, hd, MODEL_PASSTHROUGH_ATTR, FIELD_PASSTHROUGH_ATTR,
      List.any_eq_true]
    tauto

/-- Claim C2 is false on the code: the roles are swapped.  At the concrete
pass-through attributes whose sole argument is the null literal (not a
string literal), the FIELD-level case throws the descriptive `PluginError`
(the claim says it is silently treated as producing no attribute) and the
CONTAINER-level case silently produces no attribute (the claim says
compilation fails with a descriptive error). -/
theorem passthrough_swap_counterexample :
    makeFieldAttribute ⟨some ⟨"@prisma.passthrough", []⟩, [(none, Expression.nullExpr)]⟩ =
      .error (.pluginError "Invalid arguments for @prisma.passthrough attribute") ∧
    generateContainerAttribute ⟨some ⟨"@@prisma.passthrough", []⟩, [(none, Expression.nullExpr)]⟩ =
      .ok [] :=
  ⟨rfl, rfl⟩

/-- Claim C2 (amended): for every pass-through attribute whose sole argument
is present but not a (non-empty) string literal, the FIELD-level case fails
with a descriptive error and the CONTAINER-level case is silently treated as
producing no attribute. -/
theorem passthrough_asymmetry (df dm : AttrDecl) (n : Option String) (e : Expression)
    (rest : List (Option String × Expression))
    (hdf : df.name = "@prisma.passthrough") (hdm : dm.name = "@@prisma.passthrough")
    (he : passThroughText e = none) :
    makeFieldAttribute ⟨some df, (n, e) :: rest⟩ =
      .error (.pluginError ("Invalid arguments for " ++ FIELD_PASSTHROUGH_ATTR ++ " attribute")) ∧
    generateContainerAttribute ⟨some dm, (n, e) :: rest⟩ = .ok [] := by
  constructor
  · simp [makeFieldAttribute, resolvedAttrDecl, Bind.bind, Except.bind, hdf,
      FIELD_PASSTHROUGH_ATTR, he]
  · simp [generateContainerAttribute, resolvedAttrDecl, Bind.bind, Except.bind, hdm,
      MODEL_PASSTHROUGH_ATTR, he]

/-- Witness for the amended claim C2 at a concrete non-string argument. -/
theorem passthrough_asymmetry_witness :
    makeFieldAttribute ⟨some ⟨"@prisma.passthrough", []⟩, [(none, Expression.arrayExpr [])]⟩ =
      .error (.pluginError ("Invalid arguments for " ++ FIELD_PASSTHROUGH_ATTR ++ " attribute")) ∧
    generateContainerAttribute ⟨some ⟨"@@prisma.passthrough", []⟩, [(none, Expression.arrayExpr [])]⟩ =
      .ok [] :=
  passthrough_asymmetry ⟨"@prisma.passthrough", []⟩ ⟨"@@prisma.passthrough", []⟩ none
    (Expression.arrayExpr []) [] rfl rfl rfl

/-- Claim C3: `generateModelField` derives the target type as the scalar
type name, else the resolved reference name, else the unsupported escape
(each taken when it yields a non-empty text); when none applies it throws a
`PluginError` naming container and field; the field is never silently
dropped (the outcome is always a generated field or an error). -/
theorem generateModelField_type_spec (containerName : String) (field : DataModelField) :
    (∀ s, jsTruthyStr field.type.type = some s →
      ∀ pf, generateModelField containerName field = .ok pf → pf.type.name = s) ∧
    (∀ s, jsTruthyStr field.type.type = none →
      jsTruthyStr (field.type.reference.bind id) = some s →
      ∀ pf, generateModelField containerName field = .ok pf → pf.type.name = s) ∧
    (∀ s, jsTruthyStr field.type.type = none →
      jsTruthyStr (field.type.reference.bind id) = none →
      jsTruthyStr (getUnsupportedFieldType field.type) = some s →
      ∀ pf, generateModelField containerName field = .ok pf → pf.type.name = s) ∧
    (jsTruthyStr field.type.type = none →
      jsTruthyStr (field.type.reference.bind id) = none →
      jsTruthyStr (getUnsupportedFieldType field.type) = none →
      generateModelField containerName field =
        .error (.pluginError
          ("Field type is not resolved: " ++ containerName ++ "." ++ field.name))) ∧
    ((∃ pf, generateModelField containerName field = .ok pf) ∨
      (∃ err, generateModelField containerName field = .error err)) := by
  have key : ∀ t, resolveFieldTypeText field.type = some t →
      ∀ pf, generateModelField containerName field = .ok pf → pf.type.name = t := by
    intro t ht pf hok
    unfold generateModelField at hok
    rw [ht] at hok
    cases ha : getAttributesToGenerate field with
    | error e => rw [ha] at hok; simp [Bind.bind, Except.bind] at hok
    | ok attrs =>
      rw [ha] at hok
      simp [Bind.bind, Except.bind, pure, Except.pure] at hok
      rw [← hok]
  refine ⟨?_, ?_, ?_, ?_, ?_⟩
  · intro s hs
    exact key s (resolveFieldTypeText_of_type hs)
  · intro s h1 h2
    exact key s (resolveFieldTypeText_of_ref h1 h2)
  · intro s h1 h2 h3
    exact key s (resolveFieldTypeText_of_unsupported h1 h2 h3)
  · intro h1 h2 h3
    unfold generateModelField
    rw [resolveFieldTypeText_of_none h1 h2 h3]
  · cases h : generateModelField containerName field with
    | ok pf => exact Or.inl ⟨pf, rfl⟩
    | error e => exact Or.inr ⟨e, rfl⟩

/-- Witness for claim C3 at a concrete scalar-typed field. -/
theorem generateModelField_type_spec_witness :
    generateModelField "User" demoScalarField =
      .ok ⟨"id", ⟨"Int", false, false⟩, [], [], []⟩ ∧
    (⟨"id", ⟨"Int", false, false⟩, [], [], []⟩ : PrismaField).type.name = "Int" :=
  ⟨rfl, (generateModelField_type_spec "User" demoScalarField).1 "Int" rfl _ rfl⟩

/-- Claim C4: a field whose `@default` attribute's first argument contains
the `auth()` invocation anywhere in its subtree generates zero target
attributes, regardless of any other attributes present on the field. -/
theorem auth_default_suppression (field : DataModelField)
    (h : hasDefaultWithAuth field = true) :
    getAttributesToGenerate field = .ok [] ∧
    ∀ containerName pf, generateModelField containerName field = .ok pf →
      pf.attributes = [] := by
  constructor
  · simp [getAttributesToGenerate, h]
  · intro containerName pf hok
    unfold generateModelField at hok
    cases hr : resolveFieldTypeText field.type with
    | none => rw [hr] at hok; simp at hok
    | some t =>
      rw [hr] at hok
      have ha : getAttributesToGenerate field = .ok [] := by
        simp [getAttributesToGenerate, h]
      rw [ha] at hok
      simp [Bind.bind, Except.bind, pure, Except.pure] at hok
      rw [← hok]

/-- Witness for claim C4 at a concrete field with `@default(auth())`. -/
theorem auth_default_suppression_witness :
    getAttributesToGenerate demoAuthField = .ok [] ∧
    generateModelField "User" demoAuthField =
      .ok ⟨"owner", ⟨"String", false, false⟩, [], [], []⟩ ∧
    (⟨"owner", ⟨"String", false, false⟩, [], [], []⟩ : PrismaField).attributes = [] := by
  have h := auth_default_suppression demoAuthField rfl
  exact ⟨h.1, rfl, h.2 "User" _ rfl⟩

/-- Claim C9: both pass-through emission handlers read `attr.args[0].value`
unguarded, so a pass-through attribute with zero arguments hits the
out-of-bounds access (a JavaScript runtime `TypeError`), not the documented
descriptive `PluginError` path; with at least one argument the runtime
error cannot occur. -/
theorem passthrough_unguarded_first_arg (ms : List (Option String)) :
    makeFieldAttribute ⟨some ⟨"@prisma.passthrough", ms⟩, []⟩ =
      .error (.runtimeError "TypeError: Cannot read properties of undefined (reading value)") ∧
    generateContainerAttribute ⟨some ⟨"@@prisma.passthrough", ms⟩, []⟩ =
      .error (.runtimeError "TypeError: Cannot read properties of undefined (reading value)") ∧
    (∀ msg, makeFieldAttribute ⟨some ⟨"@prisma.passthrough", ms⟩, []⟩ ≠
      .error (.pluginError msg)) ∧
    (∀ msg, generateContainerAttribute ⟨some ⟨"@@prisma.passthrough", ms⟩, []⟩ ≠
      .error (.pluginError msg)) ∧
    (∀ a rest msg,
      makeFieldAttribute ⟨some ⟨"@prisma.passthrough", ms⟩, a :: rest⟩ ≠
        .error (.runtimeError msg)) ∧
    (∀ a rest msg,
      generateContainerAttribute ⟨some ⟨"@@prisma.passthrough", ms⟩, a :: rest⟩ ≠
        .error (.runtimeError msg)) := by
  refine ⟨rfl, rfl, ?_, ?_, ?_, ?_⟩
  · intro msg h
    rw [show makeFieldAttribute ⟨some ⟨"@prisma.passthrough", ms⟩, []⟩ =
      .error (.runtimeError "TypeError: Cannot read properties of undefined (reading value)")
      from rfl] at h
    simp at h
  · intro msg h
    rw [show generateContainerAttribute ⟨some ⟨"@@prisma.passthrough", ms⟩, []⟩ =
      .error (.runtimeError "TypeError: Cannot read properties of undefined (reading value)")
      from rfl] at h
    simp at h
  · intro a rest msg h
    cases hp : passThroughText a.2 with
    | none =>
      simp [makeFieldAttribute, resolvedAttrDecl, Bind.bind, Except.bind,
        FIELD_PASSTHROUGH_ATTR, hp] at h
    | some t =>
      simp [makeFieldAttribute, resolvedAttrDecl, Bind.bind, Except.bind,
        FIELD_PASSTHROUGH_ATTR, hp] at h
  · intro a rest msg h
    cases hp : passThroughText a.2 with
    | none =>
      simp [generateContainerAttribute, resolvedAttrDecl, Bind.bind, Except.bind,
        MODEL_PASSTHROUGH_ATTR, hp] at h
    | some t =>
      simp [generateContainerAttribute, resolvedAttrDecl, Bind.bind, Except.bind,
        MODEL_PASSTHROUGH_ATTR, hp] at h

/-- Claim C10: `getIdFields` with `throwIfNotFound = false` never throws and
returns exactly the isId-flagged fields (the empty list when the model is
absent); with `throwIfNotFound = true` it throws if and only if the model's
field table is absent or no field has the isId flag. -/
theorem getIdFields_spec (meta : ModelMeta) (model : String) :
    getIdFields meta model false = .ok (idFieldsOf meta model) ∧
    ((∃ msg, getIdFields meta model true = .error msg) ↔
      (meta.fields.find? (fun e => e.1 == lowerCaseFirst model) = none ∨
        idFieldsOf meta model = [])) := by
  cases hf : meta.fields.find? (fun e => e.1 == lowerCaseFirst model) with
  | none =>
    constructor
    · simp [getIdFields, hf, idFieldsOf]
    · simp [getIdFields, hf]
  | some entry =>
    constructor
    · simp [getIdFields, hf, idFieldsOf, List.isEmpty_iff]
    · by_cases he : entry.2.filter FieldInfo.isId = []
      · simp [getIdFields, hf, idFieldsOf, List.isEmpty_iff, he]
      · simp [getIdFields, hf, idFieldsOf, List.isEmpty_iff, he]

theorem mapE_ok_mem {α β : Type} (f : α → Except GenError β) :
    ∀ (l : List α) (l' : List β), mapE f l = .ok l' → ∀ a ∈ l, ∃ b, f a = .ok b := by
  intro l
  induction l with
  | nil => intro l' _ a ha; simp at ha
  | cons x xs ih =>
    intro l' hl a ha
    simp only [mapE] at hl
    cases hfx : f x with
    | error e => rw [hfx] at hl; simp [Bind.bind, Except.bind] at hl
    | ok b =>
      rw [hfx] at hl
      cases hxs : mapE f xs with
      | error e => rw [hxs] at hl; simp [Bind.bind, Except.bind] at hl
      | ok bs =>
        rcases List.mem_cons.mp ha with h | h
        · exact ⟨b, h ▸ hfx⟩
        · exact ih bs hxs a h

theorem fnArgText_ok_shape (e : Expression) (t : String) (h : fnArgText e = .ok t) :
    isLiteralOrNullArg e = true := by
  cases e <;> simp [fnArgText, isLiteralOrNullArg] at h ⊢

/-- Claim C6: in `makeFunctionCall`, a string literal argument is re-quoted,
other literals are stringified via their literal form, a null literal
becomes the token `null`, and any other argument shape is rejected with the
fatal error `Function call argument must be literal or null`; a successful
call implies every argument was a literal or null. -/
theorem makeFunctionCall_arg_spec (nm : String) (argName : Option String) :
    (∀ s, makeFunctionCall (some nm) [(argName, .stringLit s)] =
      .ok ⟨nm, [(argName, "\"" ++ s ++ "\"")]⟩) ∧
    (∀ v, makeFunctionCall (some nm) [(argName, .numberLit v)] =
      .ok ⟨nm, [(argName, v)]⟩) ∧
    (∀ b, makeFunctionCall (some nm) [(argName, .boolLit b)] =
      .ok ⟨nm, [(argName, if b then "true" else "false")]⟩) ∧
    (makeFunctionCall (some nm) [(argName, .nullExpr)] = .ok ⟨nm, [(argName, "null")]⟩) ∧
    (∀ e, isLiteralOrNullArg e = false →
      makeFunctionCall (some nm) [(argName, e)] =
        .error (.pluginError "Function call argument must be literal or null")) ∧
    (∀ args fc, makeFunctionCall (some nm) args = .ok fc →
      ∀ a ∈ args, isLiteralOrNullArg a.2 = true) := by
  refine ⟨fun s => rfl, fun v => rfl, fun b => rfl, rfl, ?_, ?_⟩
  · intro e he
    cases e <;> simp [isLiteralOrNullArg] at he <;> rfl
  · intro args fc h a ha
    unfold makeFunctionCall at h
    simp only [resolvedName, Bind.bind, Except.bind] at h
    cases hm : mapE (fun a => (fnArgText a.2).map (fun t => (a.1, t))) args with
    | error e => rw [hm] at h; simp at h
    | ok as =>
      obtain ⟨b, hb⟩ := mapE_ok_mem _ args as hm a ha
      cases hft : fnArgText a.2 with
      | error e => rw [hft] at hb; simp [Except.map] at hb
      | ok t => exact fnArgText_ok_shape a.2 t hft

/-- Witness for claim C6: concrete translations and a concrete rejection. -/
theorem makeFunctionCall_arg_spec_witness :
    makeFunctionCall (some "dbgenerated") [(none, .stringLit "uuid()")] =
      .ok ⟨"dbgenerated", [(none, "\"uuid()\"")]⟩ ∧
    makeFunctionCall (some "dbgenerated") [(none, .arrayExpr [])] =
      .error (.pluginError "Function call argument must be literal or null") := by
  have h := makeFunctionCall_arg_spec "dbgenerated" none
  exact ⟨h.1 "uuid()", h.2.2.2.2.1 (.arrayExpr []) rfl⟩

theorem gca_ok_length (a : Attribute) (la : List PrismaAttribute)
    (h : generateContainerAttribute a = .ok la) :
    la.length = if silentlySkippedPT a then 0 else 1 := by
  cases hd : a.decl with
  | none =>
    rw [show generateContainerAttribute a =
      Bind.bind (resolvedAttrDecl a.decl) _ from rfl, hd] at h
    simp [resolvedAttrDecl, Bind.bind, Except.bind] at h
  | some d =>
    rw [show generateContainerAttribute a =
      Bind.bind (resolvedAttrDecl a.decl) _ from rfl, hd] at h
    simp only [resolvedAttrDecl, Bind.bind, Except.bind] at h
    by_cases hn : d.name == MODEL_PASSTHROUGH_ATTR
    · rw [if_pos hn] at h
      cases hargs : a.args with
      | nil => rw [hargs] at h; simp at h
      | cons x rest =>
        rw [hargs] at h
        cases hp : passThroughText x.2 with
        | none =>
          simp [hp] at h
          subst h
          simp [silentlySkippedPT, hd, hn, hargs, hp]
        | some t =>
          simp [hp] at h
          subst h
          simp [silentlySkippedPT, hd, hn, hargs, hp]
    · rw [if_neg hn] at h
      cases hm : mapE makeAttributeArg a.args with
      | error e => rw [hm] at h; simp [Bind.bind, Except.bind] at h
      | ok args =>
        rw [hm] at h
        simp [Bind.bind, Except.bind, pure, Except.pure] at h
        subst h
        simp [silentlySkippedPT, hd, hn]

theorem mapE_gca_flatten_length :
    ∀ (l : List Attribute) (ls : List (List PrismaAttribute)),
      mapE generateContainerAttribute l = .ok ls →
      ls.flatten.length = (l.filter (fun a => !silentlySkippedPT a)).length := by
  intro l
  induction l with
  | nil => intro ls h; simp [mapE] at h; simp [h]
  | cons a as ih =>
    intro ls h
    simp only [mapE] at h
    cases ha : generateContainerAttribute a with
    | error e => rw [ha] at h; simp [Bind.bind, Except.bind] at h
    | ok la =>
      rw [ha] at h
      cases has : mapE generateContainerAttribute as with
      | error e => rw [has] at h; simp [Bind.bind, Except.bind] at h
      | ok ls' =>
        rw [has] at h
        simp [Bind.bind, Except.bind, pure, Except.pure] at h
        subst h
        have hlen := gca_ok_length a la ha
        by_cases hs : silentlySkippedPT a
        · simp [hs] at hlen
          simp [List.filter_cons, hs, hlen, ih ls' has]
        · simp [hs] at hlen
          simp [List.filter_cons, hs, hlen, ih ls' has]
          omega

/-- Claim C5 is false on the code as stated: the "emitted as a target
attribute iff emittable" direction fails.  The concrete container-level
pass-through attribute with a null (non-string-literal) argument is
classified emittable, yet generating its model succeeds with zero container
attributes — the attribute is silently dropped. -/
theorem attr_filter_counterexample :
    isPrismaAttribute ⟨some ⟨"@@prisma.passthrough", []⟩, [(some "text", Expression.nullExpr)]⟩ =
      true ∧
    generateModel
      ⟨"M", false, [],
        [⟨some ⟨"@@prisma.passthrough", []⟩, [(some "text", Expression.nullExpr)]⟩], []⟩ =
      .ok ⟨"M", false, [], [], []⟩ :=
  ⟨rfl, rfl⟩

/-- Claim C5 (amended): in every generated model or enum, each resolved
non-emittable attribute produces exactly one `/// `-prefixed doc-comment
line, placed before any verbatim author comments, and unresolved attributes
are skipped entirely; each emittable attribute emits exactly one target
attribute, except that an emittable container-level pass-through attribute
whose sole argument is not a non-empty string literal silently produces no
attribute. -/
theorem attr_filter_amended (m : DataModel) (e : EnumDecl)
    (pm : PrismaModelDecl) (pe : PrismaEnumDecl)
    (hm : generateModel m = .ok pm) (he : generateEnum e = .ok pe) :
    pm.comments =
      ((m.attributes.filter (fun a => a.decl.isSome && !(isPrismaAttribute a))).map
        (fun a => "/// " ++ zmodelRender a)) ++ m.comments ∧
    pe.comments =
      ((e.attributes.filter (fun a => a.decl.isSome && !(isPrismaAttribute a))).map
        (fun a => "/// " ++ zmodelRender a)) ++ e.comments ∧
    pm.attributes.length = countEmitted m.attributes ∧
    pe.attributes.length = countEmitted e.attributes := by
  unfold generateModel at hm
  unfold generateEnum at he
  cases hf : mapE (generateModelField m.name) m.fields with
  | error err => rw [hf] at hm; simp [Bind.bind, Except.bind] at hm
  | ok fs =>
    rw [hf] at hm
    cases ha : mapE generateContainerAttribute (m.attributes.filter isPrismaAttribute) with
    | error err => rw [ha] at hm; simp [Bind.bind, Except.bind] at hm
    | ok ls =>
      rw [ha] at hm
      simp only [Bind.bind, Except.bind, pure, Except.pure, Except.ok.injEq] at hm
      cases hef : mapE generateEnumField e.fields with
      | error err => rw [hef] at he; simp [Bind.bind, Except.bind] at he
      | ok efs =>
        rw [hef] at he
        cases hea : mapE generateContainerAttribute (e.attributes.filter isPrismaAttribute) with
        | error err => rw [hea] at he; simp [Bind.bind, Except.bind] at he
        | ok els =>
          rw [hea] at he
          simp only [Bind.bind, Except.bind, pure, Except.pure, Except.ok.injEq] at he
          refine ⟨?_, ?_, ?_, ?_⟩
          · rw [← hm]
          · rw [← he]
          · rw [← hm]
            exact mapE_gca_flatten_length _ ls ha
          · rw [← he]
            exact mapE_gca_flatten_length _ els hea

/-- Witness for the amended claim C5 at a concrete model and enum. -/
theorem attr_filter_amended_witness :
    ∃ pm pe, generateModel demoModel = .ok pm ∧ generateEnum demoEnum = .ok pe ∧
      pm.comments = ["/// @@allow(\"all\")", "// author comment"] ∧
      pe.comments = ["/// @@deny", "// enum comment"] ∧
      pm.attributes.length = countEmitted demoModel.attributes ∧
      pe.attributes.length = countEmitted demoEnum.attributes := by
  obtain ⟨h1, h2, h3, h4⟩ := attr_filter_amended demoModel demoEnum _ _ rfl rfl
  exact ⟨_, _, rfl, rfl, by rw [h1]; rfl, by rw [h2]; rfl, h3, h4⟩

theorem generateModelField_name (cn : String) (f : DataModelField) (pf : PrismaField)
    (h : generateModelField cn f = .ok pf) : pf.name = f.name := by
  unfold generateModelField at h
  cases hr : resolveFieldTypeText f.type with
  | none => rw [hr] at h; simp at h
  | some t =>
    rw [hr] at h
    cases ha : getAttributesToGenerate f with
    | error e => rw [ha] at h; simp [Bind.bind, Except.bind] at h
    | ok attrs =>
      rw [ha] at h
      simp [Bind.bind, Except.bind, pure, Except.pure] at h
      rw [← h]

theorem generateEnumField_name (f : EnumField) (pef : PrismaEnumField)
    (h : generateEnumField f = .ok pef) : pef.name = f.name := by
  unfold generateEnumField at h
  cases ha : mapE makeFieldAttribute (f.attributes.filter isPrismaAttribute) with
  | error e => rw [ha] at h; simp [Bind.bind, Except.bind] at h
  | ok attrs =>
    rw [ha] at h
    simp [Bind.bind, Except.bind, pure, Except.pure] at h
    rw [← h]

theorem configFieldName (a : String × ConfigExpr) (b : SimpleField)
    (h : (configExprToText a.2).map (SimpleField.mk a.1) = .ok b) : b.name = a.1 := by
  cases hc : configExprToText a.2 with
  | error e => rw [hc] at h; simp [Except.map] at h
  | ok t =>
    rw [hc] at h
    simp [Except.map] at h
    rw [← h]

theorem corr_dataSource (ds : DataSourceDecl) (pd : PrismaDecl)
    (h : generateDataSource ds = .ok pd) : declCorresponds (.dataSource ds) pd := by
  unfold generateDataSource at h
  cases hf : mapE (fun f => (configExprToText f.2).map (SimpleField.mk f.1)) ds.fields with
  | error e => rw [hf] at h; simp [Bind.bind, Except.bind] at h
  | ok fs =>
    rw [hf] at h
    simp [Bind.bind, Except.bind, pure, Except.pure] at h
    subst h
    exact ⟨rfl, mapE_ok_map _ SimpleField.name Prod.fst configFieldName ds.fields fs hf⟩

theorem corr_model (m : DataModel) (pm : PrismaModelDecl)
    (h : generateModel m = .ok pm) : declCorresponds (.dataModel m) (.model pm) := by
  unfold generateModel at h
  cases hf : mapE (generateModelField m.name) m.fields with
  | error e => rw [hf] at h; simp [Bind.bind, Except.bind] at h
  | ok fs =>
    rw [hf] at h
    cases ha : mapE generateContainerAttribute (m.attributes.filter isPrismaAttribute) with
    | error e => rw [ha] at h; simp [Bind.bind, Except.bind] at h
    | ok ls =>
      rw [ha] at h
      simp [Bind.bind, Except.bind, pure, Except.pure] at h
      subst h
      exact ⟨rfl, mapE_ok_map _ PrismaField.name DataModelField.name
        (generateModelField_name m.name) m.fields fs hf, ls, ha, rfl⟩

theorem corr_enum (e : EnumDecl) (pe : PrismaEnumDecl)
    (h : generateEnum e = .ok pe) : declCorresponds (.enumDecl e) (.enumDecl pe) := by
  unfold generateEnum at h
  cases hf : mapE generateEnumField e.fields with
  | error err => rw [hf] at h; simp [Bind.bind, Except.bind] at h
  | ok fs =>
    rw [hf] at h
    cases ha : mapE generateContainerAttribute (e.attributes.filter isPrismaAttribute) with
    | error err => rw [ha] at h; simp [Bind.bind, Except.bind] at h
    | ok ls =>
      rw [ha] at h
      simp [Bind.bind, Except.bind, pure, Except.pure] at h
      subst h
      exact ⟨rfl, mapE_ok_map _ PrismaEnumField.name EnumField.name
        generateEnumField_name e.fields fs hf, ls, ha, rfl⟩

theorem corr_generator (version : Option SemVer) (g : GeneratorDecl) (pg : PrismaGenerator)
    (h : generateGenerator version g = .ok pg) : declCorresponds (.generator g) (.generator pg) := by
  unfold generateGenerator at h
  cases hf : mapE (fun f => (configExprToText f.2).map (SimpleField.mk f.1)) g.fields with
  | error e => rw [hf] at h; simp [Bind.bind, Except.bind] at h
  | ok fs =>
    rw [hf] at h
    simp only [Bind.bind, Except.bind] at h
    cases hs : previewFeaturesStep version fs with
    | error e => rw [hs] at h; simp [Bind.bind, Except.bind] at h
    | ok fs' =>
      rw [hs] at h
      simp [Bind.bind, Except.bind, pure, Except.pure] at h
      subst h
      exact rfl

/-- Claim C8: the driver preserves source order exactly — the built target
document's declarations correspond one-to-one, in order, to the handled
source declarations (same kind and name, fields in source order, container
attributes the in-order concatenation of the per-attribute emissions); no
reordering, sorting or deduplication happens. -/
theorem generate_order (version : Option SemVer) :
    ∀ (decls : List Declaration) (doc : List PrismaDecl),
      generate version decls = .ok doc →
      List.Forall₂ declCorresponds (decls.filter isHandledDecl) doc := by
  intro decls
  induction decls with
  | nil =>
    intro doc h
    simp [generate] at h
    simp [h]
  | cons d rest ih =>
    intro doc h
    simp only [generate] at h
    cases hd : genDecl version d with
    | error err => rw [hd] at h; simp [Bind.bind, Except.bind] at h
    | ok od =>
      rw [hd] at h
      cases hr : generate version rest with
      | error err => rw [hr] at h; simp [Bind.bind, Except.bind] at h
      | ok tl =>
        rw [hr] at h
        simp [Bind.bind, Except.bind, pure, Except.pure] at h
        subst h
        cases d with
        | other =>
          have hod : od = none := by
            simp [genDecl, pure, Except.pure] at hd
            exact hd.symm
          subst hod
          simpa [isHandledDecl, List.filter_cons] using ih tl hr
        | dataSource ds =>
          simp only [genDecl] at hd
          cases hg : generateDataSource ds with
          | error err => rw [hg] at hd; simp [Except.map] at hd
          | ok pd =>
            rw [hg] at hd
            simp [Except.map] at hd
            subst hd
            simpa [isHandledDecl, List.filter_cons, Option.toList] using
              List.Forall₂.cons (corr_dataSource ds pd hg) (ih tl hr)
        | enumDecl e =>
          simp only [genDecl] at hd
          cases hg : generateEnum e with
          | error err => rw [hg] at hd; simp [Except.map] at hd
          | ok pe =>
            rw [hg] at hd
            simp [Except.map] at hd
            subst hd
            simpa [isHandledDecl, List.filter_cons, Option.toList] using
              List.Forall₂.cons (corr_enum e pe hg) (ih tl hr)
        | dataModel m =>
          simp only [genDecl] at hd
          cases hg : generateModel m with
          | error err => rw [hg] at hd; simp [Except.map] at hd
          | ok pm =>
            rw [hg] at hd
            simp [Except.map] at hd
            subst hd
            simpa [isHandledDecl, List.filter_cons, Option.toList] using
              List.Forall₂.cons (corr_model m pm hg) (ih tl hr)
        | generator g =>
          simp only [genDecl] at hd
          cases hg : generateGenerator version g with
          | error err => rw [hg] at hd; simp [Except.map] at hd
          | ok pg =>
            rw [hg] at hd
            simp [Except.map] at hd
            subst hd
            simpa [isHandledDecl, List.filter_cons, Option.toList] using
              List.Forall₂.cons (corr_generator version g pg hg) (ih tl hr)

/-- Witness for claim C8 at a concrete five-declaration document (including
an unhandled declaration kind between the handled ones). -/
theorem generate_order_witness :
    ∃ doc, generate (some ⟨4, 8, 0⟩) demoDecls = .ok doc ∧
      List.Forall₂ declCorresponds (demoDecls.filter isHandledDecl) doc :=
  ⟨_, rfl, generate_order (some ⟨4, 8, 0⟩) demoDecls _ rfl⟩

theorem skipSpaces_cons_ne (c : Char) (l : List Char) (h : ¬ c = ' ') :
    skipSpaces (c :: l) = c :: l := by
  simp [skipSpaces, h]

theorem pStringL_append : ∀ (s r : List Char), '"' ∉ s →
    pStringL (s ++ '"' :: r) = some (s, r) := by
  intro s
  induction s with
  | nil => intro r _; simp [pStringL]
  | cons c cs ih =>
    intro r hq
    have hc : ¬ c = '"' := fun hcc => hq (hcc ▸ List.mem_cons_self c cs)
    simp [pStringL, hc, ih r (fun hm => hq (List.mem_cons_of_mem c hm))]

theorem pStringL_no_quote : ∀ (l s r : List Char), pStringL l = some (s, r) → '"' ∉ s := by
  intro l
  induction l with
  | nil => intro s r h; simp [pStringL] at h
  | cons c cs ih =>
    intro s r h
    by_cases hc : c = '"'
    · simp [pStringL, hc] at h
      obtain ⟨h1, h2⟩ := h
      subst h1
      simp
    · simp only [pStringL, hc, if_false] at h
      cases hp : pStringL cs with
      | none => rw [hp] at h; simp at h
      | some p =>
        obtain ⟨s', r'⟩ := p
        rw [hp] at h
        simp at h
        intro hmem
        rw [← h.1] at hmem
        rcases List.mem_cons.mp hmem with h1 | h1
        · exact hc h1.symm
        · exact ih s' r' hp h1

theorem encodeTail_length : ∀ xs : List (List Char), xs.length ≤ (encodeTail xs).length := by
  intro xs
  induction xs with
  | nil => simp [encodeTail]
  | cons y ys ih => simp [encodeTail]; omega

theorem pElems_closeBracket (fuel : Nat) (rest : List Char) :
    pElems (fuel + 1) (']' :: rest) = some ([], rest) := rfl

theorem pElems_comma (fuel : Nat) (rest : List Char) :
    pElems (fuel + 1) (',' :: rest) =
      (match skipSpaces rest with
       | [] => none
       | c2 :: rest2 =>
         if c2 = '"' then
           match pStringL rest2 with
           | none => none
           | some (s, r) =>
             match pElems fuel r with
             | none => none
             | some (xs, r2) => some (s :: xs, r2)
         else none) := rfl

theorem pElems_comma_quote (fuel : Nat) (rest rest2 : List Char)
    (hsk : skipSpaces rest = '"' :: rest2) :
    pElems (fuel + 1) (',' :: rest) =
      (match pStringL rest2 with
       | none => none
       | some (s, r) =>
         match pElems fuel r with
         | none => none
         | some (xs, r2) => some (s :: xs, r2)) := by
  rw [pElems_comma, hsk]
  simp

theorem pElems_encode : ∀ (xs : List (List Char)) (fuel : Nat),
    (∀ x ∈ xs, '"' ∉ x) → xs.length < fuel →
    pElems fuel (encodeTail xs) = some (xs, []) := by
  intro xs
  induction xs with
  | nil =>
    intro fuel _ hf
    cases fuel with
    | zero => omega
    | succ k =>
      rw [show encodeTail [] = [']'] from rfl]
      exact pElems_closeBracket k []
  | cons y ys ih =>
    intro fuel hq hf
    cases fuel with
    | zero => omega
    | succ k =>
      have hy : '"' ∉ y := hq y (List.mem_cons_self y ys)
      have hys : ∀ x ∈ ys, '"' ∉ x := fun x hx => hq x (List.mem_cons_of_mem y hx)
      have hlt : ys.length < k := by simpa using Nat.lt_of_succ_lt_succ hf
      simp only [encodeTail]
      rw [pElems_comma_quote k _ _ (skipSpaces_cons_ne '"' _ (by decide))]
      simp only [pStringL_append y _ hy]
      simp only [ih k hys hlt]

theorem pElems_no_quote : ∀ (fuel : Nat) (l : List Char) (xs : List (List Char)) (r : List Char),
    pElems fuel l = some (xs, r) → ∀ x ∈ xs, '"' ∉ x := by
  intro fuel
  induction fuel with
  | zero => intro l xs r h; simp [pElems] at h
  | succ k ih =>
    intro l xs r h
    cases l with
    | nil => simp [pElems] at h
    | cons c rest =>
      by_cases hc : c = ']'
      · subst hc
        rw [pElems_closeBracket] at h
        simp at h
        obtain ⟨h1, h2⟩ := h
        subst h1
        simp
      · by_cases hcc : c = ','
        · subst hcc
          cases hsk : skipSpaces rest with
          | nil => rw [pElems_comma, hsk] at h; simp at h
          | cons c2 rest2 =>
            by_cases h2 : c2 = '"'
            · subst h2
              rw [pElems_comma_quote k rest rest2 hsk] at h
              cases hps : pStringL rest2 with
              | none => rw [hps] at h; simp at h
              | some p =>
                obtain ⟨s', r'⟩ := p
                simp only [hps] at h
                cases hpe : pElems k r' with
                | none => simp only [hpe] at h; simp at h
                | some q =>
                  obtain ⟨xs', r''⟩ := q
                  simp only [hpe] at h
                  simp at h
                  intro x hx
                  rw [← h.1] at hx
                  rcases List.mem_cons.mp hx with h1 | h1
                  · exact h1 ▸ pStringL_no_quote rest2 s' r' hps
                  · exact ih r' xs' r'' hpe x h1
            · rw [pElems_comma, hsk] at h
              simp [h2] at h
        · simp [pElems, hc, hcc] at h


theorem strMk_data (s : String) : String.mk s.data = s := rfl

theorem map_mk_data : ∀ (l : List String), (l.map String.data).map String.mk = l := by
  intro l
  induction l with
  | nil => rfl
  | cons s rest ih => simp [ih, strMk_data]

theorem map_comp_mk_data : ∀ (l : List String), List.map (String.mk ∘ String.data) l = l := by
  intro l
  induction l with
  | nil => rfl
  | cons s rest ih => simp [ih, strMk_data]

theorem jsonParsePF_stringify (xs : List String) (hq : ∀ x ∈ xs, '"' ∉ x.data) :
    jsonParsePF (stringifyStrList xs) = some (.strArr xs) := by
  cases xs with
  | nil => rfl
  | cons x rest =>
    have hx : '"' ∉ x.data := hq x (List.mem_cons_self x rest)
    have hrest : ∀ y ∈ rest.map String.data, '"' ∉ y := by
      intro y hy
      obtain ⟨z, hz, rfl⟩ := List.mem_map.mp hy
      exact hq z (List.mem_cons_of_mem x hz)
    have hfuel : (rest.map String.data).length <
        (encodeTail (rest.map String.data)).length + 1 :=
      Nat.lt_succ_of_le (encodeTail_length (rest.map String.data))
    have hdata : (stringifyStrList (x :: rest)).data =
        '[' :: '"' :: (x.data ++ '"' :: encodeTail (rest.map String.data)) := rfl
    simp [jsonParsePF, pArr, hdata, skipSpaces,
      pStringL_append x.data _ hx,
      pElems_encode (rest.map String.data) _ hrest hfuel,
      map_mk_data, strMk_data, map_comp_mk_data]

theorem pArr_no_quote (l : List Char) (els : List (List Char)) (h : pArr l = some els) :
    ∀ y ∈ els, '"' ∉ y := by
  unfold pArr at h
  cases hsk : skipSpaces l with
  | nil => simp only [hsk] at h; simp at h
  | cons c rest =>
    simp only [hsk] at h
    by_cases hc : c = '['
    · rw [if_pos hc] at h
      cases hsk2 : skipSpaces rest with
      | nil => simp only [hsk2] at h; simp at h
      | cons c2 rest2 =>
        simp only [hsk2] at h
        by_cases h2 : c2 = ']'
        · rw [if_pos h2] at h
          by_cases he : (skipSpaces rest2).isEmpty
          · rw [if_pos he] at h
            simp at h
            subst h
            simp
          · rw [if_neg he] at h
            simp at h
        · rw [if_neg h2] at h
          by_cases h3 : c2 = '"'
          · rw [if_pos h3] at h
            cases hps : pStringL rest2 with
            | none => simp only [hps] at h; simp at h
            | some p =>
              obtain ⟨s, r⟩ := p
              simp only [hps] at h
              cases hpe : pElems (r.length + 1) r with
              | none => simp only [hpe] at h; simp at h
              | some q =>
                obtain ⟨xs, r2⟩ := q
                simp only [hpe] at h
                by_cases he : (skipSpaces r2).isEmpty
                · rw [if_pos he] at h
                  simp at h
                  intro y hy
                  rw [← h] at hy
                  rcases List.mem_cons.mp hy with h1 | h1
                  · exact h1 ▸ pStringL_no_quote rest2 s r hps
                  · exact pElems_no_quote _ r xs r2 hpe y h1
                · rw [if_neg he] at h
                  simp at h
          · rw [if_neg h3] at h
            simp at h
    · rw [if_neg hc] at h
      simp at h

theorem jsonParsePF_no_quote (s : String) (xs : List String)
    (h : jsonParsePF s = some (.strArr xs)) : ∀ x ∈ xs, '"' ∉ x.data := by
  have harr : ∀ els, pArr s.data = some els → els.map String.mk = xs →
      ∀ x ∈ xs, '"' ∉ x.data := by
    intro els hp hmk x hx
    rw [← hmk] at hx
    obtain ⟨y, hy, rfl⟩ := List.mem_map.mp hx
    exact pArr_no_quote s.data els hp y hy
  unfold jsonParsePF at h
  cases hsk : skipSpaces s.data with
  | nil =>
    simp only [hsk] at h
    cases hp : pArr s.data with
    | none => rw [hp] at h; simp at h
    | some els =>
      rw [hp] at h
      simp at h
      exact harr els hp h
  | cons c rest =>
    simp only [hsk] at h
    by_cases hc : c = '"'
    · rw [if_pos hc] at h
      cases hps : pStringL rest with
      | none => simp only [hps] at h; simp at h
      | some p =>
        obtain ⟨t, r⟩ := p
        simp only [hps] at h
        by_cases he : (skipSpaces r).isEmpty
        · rw [if_pos he] at h
          simp at h
        · rw [if_neg he] at h
          simp at h
    · rw [if_neg hc] at h
      cases hp : pArr s.data with
      | none => rw [hp] at h; simp at h
      | some els =>
        rw [hp] at h
        simp at h
        exact harr els hp h

theorem find?_updateFirst_ne (n t m : String) (hne : m ≠ n) :
    ∀ l : List SimpleField,
      (updateFirstField l n t).find? (fun f => f.name == m) =
        l.find? (fun f => f.name == m) := by
  intro l
  induction l with
  | nil => rfl
  | cons f rest ih =>
    by_cases hf : (f.name == n) = true
    · have hfn : f.name = n := by simpa using hf
      have hm : (f.name == m) = false := by
        simp [hfn]
        exact fun hh => hne hh.symm
      simp only [updateFirstField]
      rw [if_pos hf]
      simp [List.find?, hm]
    · have hb : (f.name == n) = false := by simpa using hf
      simp only [updateFirstField]
      rw [if_neg (by simp [hb])]
      by_cases hm : (f.name == m) = true
      · simp [List.find?, hm]
      · have hmb : (f.name == m) = false := by simpa using hm
        simp [List.find?, hmb, ih]

theorem find?_updateFirst_self : ∀ (l : List SimpleField) (n t : String) (f0 : SimpleField),
    l.find? (fun f => f.name == n) = some f0 →
    (updateFirstField l n t).find? (fun f => f.name == n) = some ⟨n, t⟩ := by
  intro l
  induction l with
  | nil => intro n t f0 h; simp [List.find?] at h
  | cons f rest ih =>
    intro n t f0 h
    by_cases hf : (f.name == n) = true
    · have hfn : f.name = n := by simpa using hf
      simp only [updateFirstField]
      rw [if_pos hf]
      simp [List.find?, hf, hfn]
    · have hb : (f.name == n) = false := by simpa using hf
      simp only [updateFirstField]
      rw [if_neg (by simp [hb])]
      simp only [List.find?, hb] at h ⊢
      exact ih n t f0 h

theorem find?_upsert_self (l : List SimpleField) (n t : String) :
    (upsertField l n t).find? (fun f => f.name == n) = some ⟨n, t⟩ := by
  unfold upsertField
  cases hfind : l.find? (fun f => f.name == n) with
  | none =>
    rw [List.find?_append, hfind]
    simp [List.find?]
  | some f0 => exact find?_updateFirst_self l n t f0 hfind

theorem find?_upsert_ne (l : List SimpleField) (n t m : String) (hne : m ≠ n) :
    (upsertField l n t).find? (fun f => f.name == m) = l.find? (fun f => f.name == m) := by
  unfold upsertField
  cases hfind : l.find? (fun f => f.name == n) with
  | none =>
    rw [List.find?_append]
    have hone : (([⟨n, t⟩] : List SimpleField).find? (fun f => f.name == m)) = none := by
      have : (n == m) = false := by
        simp
        exact fun hh => hne hh.symm
      simp [List.find?, this]
    rw [hone]
    cases l.find? (fun f => f.name == m) <;> simp [Option.or]
  | some f0 => exact find?_updateFirst_ne n t m hne l

theorem updateFirst_noop : ∀ (l : List SimpleField) (n t : String) (f0 : SimpleField),
    l.find? (fun f => f.name == n) = some f0 → f0.text = t →
    updateFirstField l n t = l := by
  intro l
  induction l with
  | nil => intro n t f0 h _; rfl
  | cons f rest ih =>
    intro n t f0 h ht
    by_cases hf : (f.name == n) = true
    · simp only [List.find?, hf] at h
      simp at h
      subst h
      simp only [updateFirstField]
      rw [if_pos hf, ← ht]
    · have hb : (f.name == n) = false := by simpa using hf
      simp only [List.find?, hb] at h
      simp only [updateFirstField]
      rw [if_neg (by simp [hb]), ih n t f0 h ht]

theorem upsert_noop (l : List SimpleField) (n t : String) (f0 : SimpleField)
    (hf : l.find? (fun f => f.name == n) = some f0) (ht : f0.text = t) :
    upsertField l n t = l := by
  unfold upsertField
  rw [hf]
  exact updateFirst_noop l n t f0 hf ht

theorem addIfAbsent_of_contains (xs : List String) (x : String) (h : xs.contains x = true) :
    addIfAbsent xs x = xs := by
  unfold addIfAbsent
  rw [if_pos h]

theorem addIfAbsent_mem_self (xs : List String) (x : String) : x ∈ addIfAbsent xs x := by
  unfold addIfAbsent
  by_cases h : xs.contains x
  · rw [if_pos h]
    simpa using h
  · rw [if_neg h]
    simp

theorem addIfAbsent_mem_of (xs : List String) (x y : String) (h : y ∈ xs) :
    y ∈ addIfAbsent xs x := by
  unfold addIfAbsent
  by_cases hc : xs.contains x
  · rw [if_pos hc]; exact h
  · rw [if_neg hc]; simp [h]

theorem addIfAbsent_ne_nil (xs : List String) (x : String) : addIfAbsent xs x ≠ [] := by
  intro h
  have hm := addIfAbsent_mem_self xs x
  rw [h] at hm
  simp at hm

theorem addIfAbsent_forall {P : String → Prop} (xs : List String) (x : String)
    (hxs : ∀ z ∈ xs, P z) (hx : P x) : ∀ z ∈ addIfAbsent xs x, P z := by
  intro z hz
  unfold addIfAbsent at hz
  by_cases h : xs.contains x
  · rw [if_pos h] at hz
    exact hxs z hz
  · rw [if_neg h] at hz
    rcases List.mem_append.mp hz with h1 | h1
    · exact hxs z h1
    · simp at h1
      subst h1
      exact hx

theorem step_reduce (ver : SemVer) (fs : List SimpleField) (xs0 : List String)
    (hp : providerIsClientJs fs = true) (hj : pfParsed fs = some (.strArr xs0)) :
    previewFeaturesStep (some ver) fs =
      (if 0 < (if ver.ltv semver500 &&
            !((if ver.ltv semver500 && !(xs0.contains "extendedWhereUnique")
               then xs0 ++ ["extendedWhereUnique"] else xs0).contains "fieldReference")
          then (if ver.ltv semver500 && !(xs0.contains "extendedWhereUnique")
                then xs0 ++ ["extendedWhereUnique"] else xs0) ++ ["fieldReference"]
          else (if ver.ltv semver500 && !(xs0.contains "extendedWhereUnique")
                then xs0 ++ ["extendedWhereUnique"] else xs0)).length
       then .ok (upsertField fs "previewFeatures" (stringifyStrList
          (if ver.ltv semver500 &&
              !((if ver.ltv semver500 && !(xs0.contains "extendedWhereUnique")
                 then xs0 ++ ["extendedWhereUnique"] else xs0).contains "fieldReference")
            then (if ver.ltv semver500 && !(xs0.contains "extendedWhereUnique")
                  then xs0 ++ ["extendedWhereUnique"] else xs0) ++ ["fieldReference"]
            else (if ver.ltv semver500 && !(xs0.contains "extendedWhereUnique")
                  then xs0 ++ ["extendedWhereUnique"] else xs0))))
       else .ok fs) := by
  unfold previewFeaturesStep
  rw [hp, hj]
  simp

theorem step_lt (ver : SemVer) (fs : List SimpleField) (xs0 : List String)
    (hp : providerIsClientJs fs = true) (hj : pfParsed fs = some (.strArr xs0))
    (hv : ver.ltv semver500 = true) :
    previewFeaturesStep (some ver) fs =
      .ok (upsertField fs "previewFeatures" (stringifyStrList
        (addIfAbsent (addIfAbsent xs0 "extendedWhereUnique") "fieldReference"))) := by
  rw [step_reduce ver fs xs0 hp hj]
  have e1 : (if ver.ltv semver500 && !(xs0.contains "extendedWhereUnique")
      then xs0 ++ ["extendedWhereUnique"] else xs0) =
      addIfAbsent xs0 "extendedWhereUnique" := by
    by_cases hc : xs0.contains "extendedWhereUnique" <;> simp [addIfAbsent, hv, hc]
  rw [e1]
  have e2 : (if ver.ltv semver500 &&
      !((addIfAbsent xs0 "extendedWhereUnique").contains "fieldReference")
      then addIfAbsent xs0 "extendedWhereUnique" ++ ["fieldReference"]
      else addIfAbsent xs0 "extendedWhereUnique") =
      addIfAbsent (addIfAbsent xs0 "extendedWhereUnique") "fieldReference" := by
    by_cases hc : (addIfAbsent xs0 "extendedWhereUnique").contains "fieldReference" <;>
      simp [addIfAbsent, hv, hc]
  rw [e2]
  rw [if_pos (List.length_pos.mpr (addIfAbsent_ne_nil _ _))]

theorem step_ge_pos (ver : SemVer) (fs : List SimpleField) (xs0 : List String)
    (hp : providerIsClientJs fs = true) (hj : pfParsed fs = some (.strArr xs0))
    (hv : ver.ltv semver500 = false) (hlen : 0 < xs0.length) :
    previewFeaturesStep (some ver) fs =
      .ok (upsertField fs "previewFeatures" (stringifyStrList xs0)) := by
  rw [step_reduce ver fs xs0 hp hj]
  simp [hv, hlen]

/-- Claim C7: for a generator with the client-codegen provider and a
detected version below 5.0.0, the negotiation appends the two preview flags
only if absent; running the step on its own output changes nothing
(idempotence, hence no duplicates); with a version at or above 5.0.0, with
no detected version, or with a different provider, the parsed
previewFeatures content is not augmented. -/
theorem previewFeatures_negotiation (version : Option SemVer) (fs fs' : List SimpleField)
    (h : previewFeaturesStep version fs = .ok fs') :
    previewFeaturesStep version fs' = .ok fs' ∧
    (∀ xs0, pfParsed fs = some (.strArr xs0) →
      (providerIsClientJs fs = true → ∀ ver, version = some ver →
        ver.ltv semver500 = true →
        pfParsed fs' =
          some (.strArr (addIfAbsent (addIfAbsent xs0 "extendedWhereUnique")
            "fieldReference"))) ∧
      ((providerIsClientJs fs = false ∨ version = none ∨
          (∃ ver, version = some ver ∧ ver.ltv semver500 = false)) →
        pfParsed fs' = some (.strArr xs0))) := by
  by_cases hp : providerIsClientJs fs = true
  · cases version with
    | none =>
      have hstep : previewFeaturesStep none fs = .ok fs := by
        simp [previewFeaturesStep, hp]
      rw [hstep] at h
      have hfs : fs' = fs := by simpa using h.symm
      subst hfs
      refine ⟨hstep, ?_⟩
      intro xs0 hxs
      constructor
      · intro _ ver hver _
        cases hver
      · intro _
        exact hxs
    | some ver =>
      cases hj : pfParsed fs with
      | none =>
        rw [show previewFeaturesStep (some ver) fs =
          .error (.runtimeError "SyntaxError: Unexpected token in JSON") from by
            simp [previewFeaturesStep, hp, hj]] at h
        cases h
      | some pj =>
        cases pj with
        | scalarStr s0 =>
          rw [show previewFeaturesStep (some ver) fs =
            .error (.pluginError "option \"previewFeatures\" must be an array") from by
              simp [previewFeaturesStep, hp, hj]] at h
          cases h
        | strArr xs0 =>
          by_cases hv : ver.ltv semver500 = true
          · have hstep := step_lt ver fs xs0 hp hj hv
            rw [hstep] at h
            have hfs : fs' = upsertField fs "previewFeatures" (stringifyStrList
                (addIfAbsent (addIfAbsent xs0 "extendedWhereUnique") "fieldReference")) := by
              simpa using h.symm
            subst hfs
            have hq0 : ∀ x ∈ xs0, '"' ∉ x.data :=
              jsonParsePF_no_quote (pfFieldText fs) xs0 hj
            have hqB : ∀ x ∈ addIfAbsent (addIfAbsent xs0 "extendedWhereUnique")
                "fieldReference", '"' ∉ x.data :=
              addIfAbsent_forall _ _ (addIfAbsent_forall _ _ hq0 (by decide)) (by decide)
            have hfind := find?_upsert_self fs "previewFeatures" (stringifyStrList
              (addIfAbsent (addIfAbsent xs0 "extendedWhereUnique") "fieldReference"))
            have hpf' : pfParsed (upsertField fs "previewFeatures" (stringifyStrList
                (addIfAbsent (addIfAbsent xs0 "extendedWhereUnique") "fieldReference"))) =
                some (.strArr (addIfAbsent (addIfAbsent xs0 "extendedWhereUnique")
                  "fieldReference")) := by
              unfold pfParsed pfFieldText
              rw [hfind]
              simpa using jsonParsePF_stringify _ hqB
            have hp' : providerIsClientJs (upsertField fs "previewFeatures" (stringifyStrList
                (addIfAbsent (addIfAbsent xs0 "extendedWhereUnique") "fieldReference"))) =
                true := by
              unfold providerIsClientJs at hp ⊢
              rw [find?_upsert_ne fs "previewFeatures" _ "provider" (by decide)]
              exact hp
            have hcE : (addIfAbsent (addIfAbsent xs0 "extendedWhereUnique")
                "fieldReference").contains "extendedWhereUnique" = true := by
              simpa using addIfAbsent_mem_of _ "fieldReference" _
                (addIfAbsent_mem_self xs0 "extendedWhereUnique")
            have hcF : (addIfAbsent (addIfAbsent xs0 "extendedWhereUnique")
                "fieldReference").contains "fieldReference" = true := by
              simpa using addIfAbsent_mem_self _ "fieldReference"
            have hBE := addIfAbsent_of_contains _ "extendedWhereUnique" hcE
            have hBF := addIfAbsent_of_contains _ "fieldReference" hcF
            refine ⟨?_, ?_⟩
            · rw [step_lt ver _ _ hp' hpf' hv, hBE, hBF]
              rw [upsert_noop _ "previewFeatures" _
                ⟨"previewFeatures", stringifyStrList
                  (addIfAbsent (addIfAbsent xs0 "extendedWhereUnique") "fieldReference")⟩
                hfind rfl]
            · intro xs0' hxs0'
              obtain rfl : xs0 = xs0' := by simpa using hxs0'
              refine ⟨fun _ ver' _ _ => hpf', ?_⟩
              intro hcase
              rcases hcase with hfalse | hnone | ⟨ver', hver', hv'⟩
              · rw [hp] at hfalse
                cases hfalse
              · cases hnone
              · exfalso
                injection hver' with hh
                rw [← hh] at hv'
                rw [hv] at hv'
                cases hv'
          · have hvb : ver.ltv semver500 = false := by simpa using hv
            by_cases hlen : 0 < xs0.length
            · have hstep := step_ge_pos ver fs xs0 hp hj hvb hlen
              rw [hstep] at h
              have hfs : fs' = upsertField fs "previewFeatures" (stringifyStrList xs0) := by
                simpa using h.symm
              subst hfs
              have hq0 : ∀ x ∈ xs0, '"' ∉ x.data :=
                jsonParsePF_no_quote (pfFieldText fs) xs0 hj
              have hfind := find?_upsert_self fs "previewFeatures" (stringifyStrList xs0)
              have hpf' : pfParsed (upsertField fs "previewFeatures"
                  (stringifyStrList xs0)) = some (.strArr xs0) := by
                unfold pfParsed pfFieldText
                rw [hfind]
                simpa using jsonParsePF_stringify _ hq0
              have hp' : providerIsClientJs (upsertField fs "previewFeatures"
                  (stringifyStrList xs0)) = true := by
                unfold providerIsClientJs at hp ⊢
                rw [find?_upsert_ne fs "previewFeatures" _ "provider" (by decide)]
                exact hp
              refine ⟨?_, ?_⟩
              · rw [step_ge_pos ver _ xs0 hp' hpf' hvb hlen]
                rw [upsert_noop _ "previewFeatures" _
                  ⟨"previewFeatures", stringifyStrList xs0⟩ hfind rfl]
              · intro xs0' hxs0'
                obtain rfl : xs0 = xs0' := by simpa using hxs0'
                refine ⟨?_, fun _ => hpf'⟩
                intro _ ver' hver' hv'
                exfalso
                injection hver' with hh
                rw [← hh] at hv'
                rw [hvb] at hv'
                cases hv'
            · have hxs0nil : xs0 = [] := List.length_eq_zero.mp (by omega)
              subst hxs0nil
              have hstep : previewFeaturesStep (some ver) fs = .ok fs := by
                rw [step_reduce ver fs [] hp hj]
                simp [hvb]
              rw [hstep] at h
              have hfs : fs' = fs := by simpa using h.symm
              subst hfs
              refine ⟨hstep, ?_⟩
              intro xs0' hxs0'
              have hxx : xs0' = [] := by simpa using hxs0'.symm
              subst hxx
              refine ⟨?_, fun _ => hj⟩
              intro _ ver' hver' hv'
              exfalso
              injection hver' with hh
              rw [← hh] at hv'
              rw [hvb] at hv'
              cases hv'
  · have hpb : providerIsClientJs fs = false := by simpa using hp
    have hstep : previewFeaturesStep version fs = .ok fs := by
      simp [previewFeaturesStep, hpb]
    rw [hstep] at h
    have hfs : fs' = fs := by simpa using h.symm
    subst hfs
    refine ⟨hstep, ?_⟩
    intro xs0 hxs
    exact ⟨fun hptrue => absurd hptrue hp, fun _ => hxs⟩

/-- Witness for claim C7: a concrete below-threshold run appends both flags,
and re-running the negotiation on its own output returns it unchanged. -/
theorem previewFeatures_negotiation_witness :
    previewFeaturesStep (some ⟨4, 8, 0⟩) demoGenFields = .ok demoGenFieldsOut ∧
    previewFeaturesStep (some ⟨4, 8, 0⟩) demoGenFieldsOut = .ok demoGenFieldsOut ∧
    pfParsed demoGenFieldsOut =
      some (.strArr (addIfAbsent (addIfAbsent [] "extendedWhereUnique") "fieldReference")) := by
  have h0 : previewFeaturesStep (some ⟨4, 8, 0⟩) demoGenFields = .ok demoGenFieldsOut := by rfl
  have h := previewFeatures_negotiation (some ⟨4, 8, 0⟩) demoGenFields demoGenFieldsOut h0
  refine ⟨h0, h.1, ?_⟩
  exact (h.2 [] (by rfl)).1 (by rfl) ⟨4, 8, 0⟩ rfl (by rfl)

/-- Witness for claim C1: the characterization applied at a marker-carrying
declaration and at an unresolved reference. -/
theorem isPrismaAttribute_characterization_witness :
    isPrismaAttribute ⟨some ⟨"@id", [some "@@@prisma"]⟩, []⟩ = true ∧
    isPrismaAttribute ⟨none, []⟩ = false := by
  constructor
  · exact (isPrismaAttribute_characterization ⟨some ⟨"@id", [some "@@@prisma"]⟩, []⟩).mpr
      ⟨⟨"@id", [some "@@@prisma"]⟩, rfl, Or.inl (by simp)⟩
  · by_contra hcon
    have hb : isPrismaAttribute ⟨none, []⟩ = true := by
      cases hx : isPrismaAttribute (⟨none, []⟩ : Attribute)
      · exact absurd hx hcon
      · rfl
    obtain ⟨d, hd, _⟩ := (isPrismaAttribute_characterization ⟨none, []⟩).mp hb
    cases hd

/-- Witness for claim C9: the zero-argument out-of-bounds behavior at the
concrete pass-through attributes with no marker list. -/
theorem passthrough_unguarded_first_arg_witness :
    makeFieldAttribute ⟨some ⟨"@prisma.passthrough", []⟩, []⟩ =
      .error (.runtimeError "TypeError: Cannot read properties of undefined (reading value)") ∧
    generateContainerAttribute ⟨some ⟨"@@prisma.passthrough", []⟩, []⟩ =
      .error (.runtimeError "TypeError: Cannot read properties of undefined (reading value)") :=
  ⟨(passthrough_unguarded_first_arg []).1, (passthrough_unguarded_first_arg []).2.1⟩

/-- Witness for claim C10: concrete lookups with a present and an absent
model. -/
theorem getIdFields_spec_witness :
    getIdFields ⟨[("user", [⟨"id", true⟩, ⟨"age", false⟩])]⟩ "User" false =
      .ok [⟨"id", true⟩] ∧
    (∃ msg, getIdFields ⟨[]⟩ "User" true = .error msg) := by
  constructor
  · have h := (getIdFields_spec ⟨[("user", [⟨"id", true⟩, ⟨"age", false⟩])]⟩ "User").1
    rw [h]
    rfl
  · exact (getIdFields_spec ⟨[]⟩ "User").2.mpr (Or.inl rfl)
